import Mathlib

/-!
Verification development for the cross-process GPU texture sharing and input
event routing core (gpui fork).  The definitions below are a shallow embedding
of the Rust sources:

* crates/gpui/src/platform/windows/event_bus.rs
  (LockFreeRingBuffer, Event, EventBus)
* crates/gpui/src/platform/windows/event_bus_integration.rs
  (per-window routing, post_input_event_for_window)
* crates/gpui/src/platform/windows/directx_atlas.rs
  (external-texture state machine of the DirectX atlas)
* crates/gpui/src/platform/mac/metal_atlas.rs
  (external-texture state machine of the Metal atlas)
* crates/gpui/src/elements/gpu_canvas.rs (GpuCanvasSource)
* crates/gpui/src/platform/blade/dmabuf_export.rs (export_texture_as_dmabuf)

The concurrent Rust code is embedded sequentially: each atomic or locked
operation becomes a pure state-passing function, `usize`/`u64` counters become
naturals reduced modulo 2^64 exactly where the source performs wrapping
arithmetic, panics and fallible calls become Option/Except results, GPU
resources become abstract numeric identities handed out by a fresh-id
counter (standing in for the D3D/Metal device), and device-pixel dimensions
are naturals.  Hash maps keyed by texture id become association lists.  The
glyph/image atlas halves of the two atlas states (monochrome/polychrome
texture lists, tile maps) are not touched by any external-texture operation
and are projected away.
-/

namespace ZedCore

/-- Width of `usize` / `u64` on the target (64-bit): counters wrap at 2^64. -/
def W : Nat := 2 ^ 64

/-- `a.wrapping_add b` on a 64-bit unsigned integer. -/
def wrapAdd (a b : Nat) : Nat := (a + b) % W

/-- `a.wrapping_sub b` on a 64-bit unsigned integer (for `a b < W` this is
`(a + 2^64 - b) % 2^64`). -/
def wrapSub (a b : Nat) : Nat := (a + (W - b % W)) % W

/-! ## Lock-free ring buffer (event_bus.rs, `LockFreeRingBuffer<T>`)

The MPMC ring is embedded sequentially: the cache-line padding is a layout
detail with no semantic content, the per-slot `RwLock<Option<T>>` becomes an
`Option T` slot in a list, and the atomic `head`/`tail` counters become the
`head`/`tail` fields (wrapping `usize` values, kept below `2^64`). -/

structure LockFreeRingBuffer (T : Type) where
  buffer : List (Option T)
  capacity : Nat
  mask : Nat
  head : Nat
  tail : Nat
deriving DecidableEq, Repr

namespace LockFreeRingBuffer

/-- `LockFreeRingBuffer::new(capacity)`; the source asserts that `capacity`
is a power of two. -/
def new (T : Type) (capacity : Nat) : LockFreeRingBuffer T :=
  { buffer := List.replicate capacity none
    capacity := capacity
    mask := capacity - 1
    head := 0
    tail := 0 }

/-- `try_push`: load `tail` and `head`, fail if `tail.wrapping_sub(head) >=
capacity`, otherwise write the slot at `tail & mask` and store
`tail.wrapping_add(1)`. -/
def try_push {T : Type} (s : LockFreeRingBuffer T) (event : T) :
    LockFreeRingBuffer T × Bool :=
  let tail := s.tail
  let head := s.head
  if s.capacity ≤ wrapSub tail head then
    (s, false)
  else
    let slot_index := tail &&& s.mask
    let s := { s with buffer := s.buffer.set slot_index (some event) }
    ({ s with tail := wrapAdd tail 1 }, true)

/-- `try_pop`: load `head` and `tail`, return `None` if `head >= tail`,
otherwise `take()` the slot at `head & mask` and store
`head.wrapping_add(1)`. -/
def try_pop {T : Type} (s : LockFreeRingBuffer T) :
    LockFreeRingBuffer T × Option T :=
  let head := s.head
  let tail := s.tail
  if tail ≤ head then
    (s, none)
  else
    let slot_index := head &&& s.mask
    let event := s.buffer.getD slot_index none
    let s := { s with buffer := s.buffer.set slot_index none }
    ({ s with head := wrapAdd head 1 }, event)

/-- `len()`: `tail.wrapping_sub(head)` (approximate under concurrency, exact
here). -/
def len {T : Type} (s : LockFreeRingBuffer T) : Nat :=
  wrapSub s.tail s.head

/-- `is_empty()`: `len() == 0`. -/
def is_empty {T : Type} (s : LockFreeRingBuffer T) : Bool :=
  len s == 0

end LockFreeRingBuffer

/-- The state produced by a successful push whose ghost push counter is `p`. -/
def pushResult {T : Type} (s : LockFreeRingBuffer T) (p : Nat) (v : T) :
    LockFreeRingBuffer T :=
  { s with buffer := s.buffer.set (p % s.capacity) (some v)
           tail := (p + 1) % W }

/-- The state produced by a successful pop whose ghost pop counter is `q`. -/
def popResult {T : Type} (s : LockFreeRingBuffer T) (q : Nat) :
    LockFreeRingBuffer T :=
  { s with buffer := s.buffer.set (q % s.capacity) none
           head := (q + 1) % W }

/-- `RingInv s k p q` relates a ring state to ghost counters: `p` successful
pushes and `q` successful pops have happened (as unbounded naturals); the
stored `tail`/`head` are their images modulo 2^64, the capacity is the power
of two `2^k` the ring was created with, and at most `capacity` elements are
in flight. -/
structure RingInv {T : Type} (s : LockFreeRingBuffer T) (k p q : Nat) : Prop where
  k_le : k ≤ 63
  cap_eq : s.capacity = 2 ^ k
  mask_eq : s.mask = s.capacity - 1
  buf_len : s.buffer.length = s.capacity
  head_eq : s.head = q % W
  tail_eq : s.tail = p % W
  q_le_p : q ≤ p
  diff_le : p - q ≤ s.capacity

/-- The in-flight elements, oldest first: slot `(q + j) % capacity` holds the
`j`-th element of `l`. -/
def Contents {T : Type} (s : LockFreeRingBuffer T) (p q : Nat) (l : List T) : Prop :=
  l.length = p - q ∧
    ∀ j, j < p - q → s.buffer[(q + j) % s.capacity]? = some l[j]?

/-- An arbitrary interleaving of ring operations (spec §8 invariant 1). -/
inductive RingOp (T : Type) where
  | push : T → RingOp T
  | pop : RingOp T

/-- Interpret a sequence of `try_push`/`try_pop` calls, counting the
successful pushes and pops. -/
def run {T : Type} (s : LockFreeRingBuffer T) (pushes pops : Nat) :
    List (RingOp T) → LockFreeRingBuffer T × Nat × Nat
  | [] => (s, pushes, pops)
  | op :: rest =>
    match op with
    | .push v =>
      let r := s.try_push v
      run r.1 (if r.2 then pushes + 1 else pushes) pops rest
    | .pop =>
      let r := s.try_pop
      run r.1 pushes (if r.2.isSome then pops + 1 else pops) rest

/-- The observable outcome of one ring operation: the returned flag of a
`try_push` or the returned value of a `try_pop`. -/
inductive RingRes (T : Type) where
  | pushed : Bool → RingRes T
  | popped : Option T → RingRes T
deriving DecidableEq, Repr

/-- Interpret a sequence of ring operations, recording each call's result. -/
def runTrace {T : Type} (s : LockFreeRingBuffer T) :
    List (RingOp T) → LockFreeRingBuffer T × List (RingRes T)
  | [] => (s, [])
  | op :: rest =>
    match op with
    | .push v =>
      let r := s.try_push v
      let t := runTrace r.1 rest
      (t.1, .pushed r.2 :: t.2)
    | .pop =>
      let r := s.try_pop
      let t := runTrace r.1 rest
      (t.1, .popped r.2 :: t.2)

/-! ## Event bus (event_bus.rs, `Event`, `EventBus`) -/

/-- Opaque input payload (`PlatformInput`); its structure is irrelevant to
the transport layer, which never inspects it. -/
structure PlatformInput where
  code : Nat
deriving DecidableEq, Repr

/-- `Event`: input plus metadata; `Instant` timestamps become naturals
supplied by the caller at post time. -/
structure Event where
  input : PlatformInput
  timestamp : Nat
  sequence_number : Nat
deriving DecidableEq, Repr

structure EventBusStats where
  total_events_pushed : Nat
  total_events_popped : Nat
  buffer_expansions : Nat
  push_failures : Nat
  max_buffer_size : Nat
deriving DecidableEq, Repr

def EventBusStats.init : EventBusStats := ⟨0, 0, 0, 0, 0⟩

/-- `INITIAL_BUFFER_CAPACITY`: 8192 = 2^13. -/
def INITIAL_BUFFER_CAPACITY : Nat := 8192

/-- `MAX_BUFFER_CAPACITY`: 1,048,576 = 2^20. -/
def MAX_BUFFER_CAPACITY : Nat := 1048576

structure EventBus where
  current_buffer : LockFreeRingBuffer Event
  sequence : Nat
  stats : EventBusStats
deriving DecidableEq, Repr

namespace EventBus

def new : EventBus :=
  { current_buffer := LockFreeRingBuffer.new Event INITIAL_BUFFER_CAPACITY
    sequence := 0
    stats := EventBusStats.init }

/-- The `while let Some(e) = old.try_pop() { new.try_push(e) }` migration
loop of `expand_and_push`, with an explicit iteration bound (the loop pops at
most `capacity` elements; the bound is slack, never reached on well-formed
states).  `none` models the `panic!` on a failed migration push and the
unreachable fuel exhaustion. -/
def migrate_loop : Nat → LockFreeRingBuffer Event → LockFreeRingBuffer Event →
    Option (LockFreeRingBuffer Event × LockFreeRingBuffer Event)
  | 0, _, _ => none
  | fuel + 1, old_buffer, new_buffer =>
    match old_buffer.try_pop with
    | (old', none) => some (old', new_buffer)
    | (old', some old_event) =>
      match new_buffer.try_push old_event with
      | (new', true) => migrate_loop fuel old' new'
      | (_, false) => none

/-- `EventBus::expand_and_push`: re-attempt the push, then double the
capacity (panicking — `none` — past `MAX_BUFFER_CAPACITY`), migrate, push the
new event and install the new ring, updating the statistics. -/
def expand_and_push (bus : EventBus) (event : Event) : Option EventBus :=
  let old_buffer := bus.current_buffer
  match old_buffer.try_push event with
  | (old', true) =>
    some { bus with
      current_buffer := old'
      stats := { bus.stats with
        total_events_pushed := bus.stats.total_events_pushed + 1 } }
  | (_, false) =>
    let old_capacity := old_buffer.capacity
    let new_capacity := old_capacity * 2
    if MAX_BUFFER_CAPACITY < new_capacity then
      none
    else
      match migrate_loop (old_capacity + 1) old_buffer
          (LockFreeRingBuffer.new Event new_capacity) with
      | none => none
      | some (_, migrated) =>
        match migrated.try_push event with
        | (_, false) => none
        | (final_buffer, true) =>
          some { bus with
            current_buffer := final_buffer
            stats := { bus.stats with
              total_events_pushed := bus.stats.total_events_pushed + 1
              buffer_expansions := bus.stats.buffer_expansions + 1
              max_buffer_size := new_capacity } }

/-- `EventBus::push`: allocate a sequence number (wrapping `fetch_add`),
build the envelope with the caller-supplied timestamp, try the fast path,
fall back to `expand_and_push`. -/
def push (bus : EventBus) (input : PlatformInput) (now : Nat) : Option EventBus :=
  let sequence_number := bus.sequence
  let bus := { bus with sequence := wrapAdd bus.sequence 1 }
  let event : Event := ⟨input, now, sequence_number⟩
  match bus.current_buffer.try_push event with
  | (buf, true) =>
    some { bus with
      current_buffer := buf
      stats := { bus.stats with
        total_events_pushed := bus.stats.total_events_pushed + 1 } }
  | (_, false) => expand_and_push bus event

/-- The pop loop of `try_pop_batch`, threading the `total_events_popped`
counter. -/
def pop_batch_loop (buffer : LockFreeRingBuffer Event) (popped : Nat) :
    Nat → LockFreeRingBuffer Event × List Event × Nat
  | 0 => (buffer, [], popped)
  | n + 1 =>
    match buffer.try_pop with
    | (buf, none) => (buf, [], popped)
    | (buf, some event) =>
      let r := pop_batch_loop buf (popped + 1) n
      (r.1, event :: r.2.1, r.2.2)

/-- `EventBus::try_pop_batch(max_batch_size)`. -/
def try_pop_batch (bus : EventBus) (max_batch_size : Nat) :
    EventBus × List Event :=
  let r := pop_batch_loop bus.current_buffer bus.stats.total_events_popped
    max_batch_size
  ({ bus with
      current_buffer := r.1
      stats := { bus.stats with total_events_popped := r.2.2 } },
    r.2.1)

/-- `EventBus::len()`. -/
def len (bus : EventBus) : Nat := bus.current_buffer.len

end EventBus

/-- `n` consecutive `push` calls of the same synthetic input from one
thread. -/
def pushN (input : PlatformInput) (now : Nat) : Nat → Option EventBus
  | 0 => some EventBus.new
  | n + 1 =>
    match pushN input now n with
    | none => none
    | some bus => bus.push input now

/-- The envelopes a fresh bus assigns to `n` consecutive pushes: sequence
numbers 0, 1, …, n−1. -/
def seqEvents (input : PlatformInput) (now : Nat) (n : Nat) : List Event :=
  (List.range n).map (fun i => ⟨input, now, i⟩)

/-- Repeated `try_pop_batch(batch)` until a batch comes back empty (with a
fuel bound on the number of batches). -/
def drain_batches (bus : EventBus) (batch : Nat) : Nat → EventBus × List Event
  | 0 => (bus, [])
  | fuel + 1 =>
    let r := bus.try_pop_batch batch
    if r.2.isEmpty then (r.1, [])
    else
      let rest := drain_batches r.1 batch fuel
      (rest.1, r.2 ++ rest.2)

/-- Bus invariant after `n` pushes and no pops from a fresh bus: `e`
expansions have happened, the ring holds exactly the `n` envelopes with
sequence numbers `0..n-1`, and the statistics counters match. -/
structure BusGood (bus : EventBus) (input : PlatformInput) (now : Nat)
    (n e : Nat) : Prop where
  inv : RingInv bus.current_buffer (13 + e) n 0
  contents : Contents bus.current_buffer n 0 (seqEvents input now n)
  seq_eq : bus.sequence = n % W
  pushed : bus.stats.total_events_pushed = n
  expansions : bus.stats.buffer_expansions = e
  popped : bus.stats.total_events_popped = 0

/-! ## Association-list embedding of `FxHashMap<ExternalTextureId, _>` -/

section KeyedMap

variable {V : Type}

def mapLookup (m : List (Nat × V)) (id : Nat) : Option V :=
  match m.find? (fun kv => kv.1 == id) with
  | some kv => some kv.2
  | none => none

def mapInsert (m : List (Nat × V)) (id : Nat) (v : V) : List (Nat × V) :=
  (id, v) :: m.filter (fun kv => kv.1 != id)

def mapUpdate (m : List (Nat × V)) (id : Nat) (f : V → V) : List (Nat × V) :=
  m.map (fun kv => if kv.1 = id then (kv.1, f kv.2) else kv)

def mapRemove (m : List (Nat × V)) (id : Nat) : List (Nat × V) :=
  m.filter (fun kv => kv.1 != id)

end KeyedMap

/-! ## External texture registry, DirectX backend (directx_atlas.rs)

GPU resources (`ID3D11Texture2D`, `ID3D11ShaderResourceView`) become
abstract identities drawn from a fresh-resource counter standing in for the
device; `CreateTexture2D` / `CreateShaderResourceView` / `Map` /
`CopyResource` are modelled as succeeding (their failure paths bail out
before any registry mutation, so they do not affect the state machine). -/

/-- Texture size in device pixels (`Size<DevicePixels>`). -/
structure SizeDP where
  width : Nat
  height : Nat
deriving DecidableEq, Repr

/-- The DXGI formats the registry distinguishes. -/
inductive DXGIFormat where
  | R8G8B8A8_UNORM
  | B8G8R8A8_UNORM
  | R8_UNORM
  | other (code : Nat)
deriving DecidableEq, Repr

/-- Error kinds of the registry operations (the source reports them as
`anyhow` messages). -/
inductive AtlasError where
  | NotFound
  | AlreadyMapped
  | NotMapped
  | UnsupportedFormat
deriving DecidableEq, Repr

namespace DirectXAtlas

/-- `ExternalTextureEntry` of the DirectX atlas. -/
structure ExternalTextureEntry where
  front_texture : Nat
  front_view : Nat
  back_texture : Nat
  back_view : Nat
  staging_texture : Nat
  size : SizeDP
  format : DXGIFormat
  bytes_per_pixel : Nat
  needs_swap : Bool
  is_mapped : Bool
deriving DecidableEq, Repr

/-- The external-texture slice of `DirectXAtlasState`, plus the fresh
resource counter modelling the device. -/
structure State where
  external_textures : List (Nat × ExternalTextureEntry)
  next_external_texture_id : Nat
  next_resource : Nat
deriving DecidableEq, Repr

def initial : State := ⟨[], 1, 0⟩

/-- `DirectXAtlas::register_external_texture`. -/
def register_external_texture (s : State) (size : SizeDP) (format : DXGIFormat) :
    Except AtlasError (State × Nat) :=
  match (match format with
         | .R8G8B8A8_UNORM => some 4
         | .B8G8R8A8_UNORM => some 4
         | .R8_UNORM => some 1
         | .other _ => none : Option Nat) with
  | none => .error .UnsupportedFormat
  | some bytes_per_pixel =>
    let front_texture := s.next_resource
    let front_view := s.next_resource + 1
    let back_texture := s.next_resource + 2
    let back_view := s.next_resource + 3
    let staging_texture := s.next_resource + 4
    let id := s.next_external_texture_id
    let entry : ExternalTextureEntry :=
      { front_texture := front_texture
        front_view := front_view
        back_texture := back_texture
        back_view := back_view
        staging_texture := staging_texture
        size := size
        format := format
        bytes_per_pixel := bytes_per_pixel
        needs_swap := false
        is_mapped := false }
    .ok ({ external_textures := mapInsert s.external_textures id entry
           next_external_texture_id := s.next_external_texture_id + 1
           next_resource := s.next_resource + 5 }, id)

/-- `DirectXAtlas::map_external_texture`: `NotFound` for an unknown id,
`AlreadyMapped` if `is_mapped`, otherwise `device_context.Map` succeeds,
`is_mapped := true`, and a writable view of
`width * height * bytes_per_pixel` bytes is returned (we model the view by
its length). -/
def map_external_texture (s : State) (id : Nat) :
    Except AtlasError (State × Nat) :=
  match mapLookup s.external_textures id with
  | none => .error .NotFound
  | some entry =>
    if entry.is_mapped then .error .AlreadyMapped
    else
      let size := entry.size.width * entry.size.height * entry.bytes_per_pixel
      .ok ({ s with external_textures :=
               (mapUpdate s.external_textures id
                 (fun e => { e with is_mapped := true })) }, size)

/-- `DirectXAtlas::unmap_external_texture`: `NotFound` / `NotMapped` checks,
`Unmap` + `CopyResource(back ← staging)`, then `is_mapped := false`,
`needs_swap := true`. -/
def unmap_external_texture (s : State) (id : Nat) : Except AtlasError State :=
  match mapLookup s.external_textures id with
  | none => .error .NotFound
  | some entry =>
    if !entry.is_mapped then .error .NotMapped
    else
      .ok { s with external_textures :=
              (mapUpdate s.external_textures id
                (fun e => { e with is_mapped := false, needs_swap := true })) }

/-- `DirectXAtlas::swap_external_texture_buffers`: when `needs_swap`,
exchange front/back textures and views and clear the flag. -/
def swap_external_texture_buffers (s : State) (id : Nat) :
    Except AtlasError State :=
  match mapLookup s.external_textures id with
  | none => .error .NotFound
  | some entry =>
    if entry.needs_swap then
      .ok { s with external_textures :=
              (mapUpdate s.external_textures id
                (fun e =>
                  { e with
                    front_texture := e.back_texture
                    back_texture := e.front_texture
                    front_view := e.back_view
                    back_view := e.front_view
                    needs_swap := false })) }
    else
      .ok s

/-- `DirectXAtlas::get_external_texture_view`: the current front view. -/
def get_external_texture_view (s : State) (id : Nat) : Except AtlasError Nat :=
  match mapLookup s.external_textures id with
  | none => .error .NotFound
  | some entry => .ok entry.front_view

/-- `DirectXAtlas::unregister_external_texture`. -/
def unregister_external_texture (s : State) (id : Nat) : State :=
  { s with external_textures := mapRemove s.external_textures id }

/-- The registry operations named by the spec. -/
inductive Op where
  | register (size : SizeDP) (format : DXGIFormat)
  | map (id : Nat)
  | unmap (id : Nat)
  | swap (id : Nat)
  | view (id : Nat)
  | unregister (id : Nat)

/-- One operation against the registry; a failing operation leaves the
state unchanged (every error path in the source bails out before mutating
the map). -/
def applyOp (s : State) : Op → State
  | .register size format =>
    match register_external_texture s size format with
    | .ok (s', _) => s'
    | .error _ => s
  | .map id =>
    match map_external_texture s id with
    | .ok (s', _) => s'
    | .error _ => s
  | .unmap id =>
    match unmap_external_texture s id with
    | .ok s' => s'
    | .error _ => s
  | .swap id =>
    match swap_external_texture_buffers s id with
    | .ok s' => s'
    | .error _ => s
  | .view _ => s
  | .unregister id => unregister_external_texture s id

def runOps (s : State) (ops : List Op) : State :=
  ops.foldl applyOp s

/-- The claimed invariant: a mapped entry never awaits a swap. -/
def Inv (s : State) : Prop :=
  ∀ id e, mapLookup s.external_textures id = some e →
    e.is_mapped = true → e.needs_swap = false

end DirectXAtlas

/-! ## External texture registry, Metal backend (metal_atlas.rs)

Metal textures use shared storage: there is no staging resource, no
`is_mapped` flag, and `map` simply returns the contents pointer of the back
texture. -/

namespace MetalAtlas

/-- `ExternalTextureEntry` of the Metal atlas — note: no `is_mapped`
field. -/
structure ExternalTextureEntry where
  front_texture : Nat
  back_texture : Nat
  size : SizeDP
  needs_swap : Bool
deriving DecidableEq, Repr

structure State where
  external_textures : List (Nat × ExternalTextureEntry)
  next_external_texture_id : Nat
  next_resource : Nat
deriving DecidableEq, Repr

def initial : State := ⟨[], 1, 0⟩

/-- `MetalAtlas::register_external_texture` (format fixed to BGRA8Unorm,
shared storage). -/
def register_external_texture (s : State) (size : SizeDP) :
    Except AtlasError (State × Nat) :=
  let front_texture := s.next_resource
  let back_texture := s.next_resource + 1
  let id := s.next_external_texture_id
  let entry : ExternalTextureEntry :=
    { front_texture := front_texture
      back_texture := back_texture
      size := size
      needs_swap := false }
  .ok ({ external_textures := mapInsert s.external_textures id entry
         next_external_texture_id := s.next_external_texture_id + 1
         next_resource := s.next_resource + 2 }, id)

/-- `MetalAtlas::map_external_texture`: `NotFound` for an unknown id,
otherwise returns the back texture's contents pointer as a view of
`(width * 4) * height` bytes (BGRA, 4 bytes per pixel); the state is not
modified — nothing records that the texture is mapped. -/
def map_external_texture (s : State) (id : Nat) : Except AtlasError Nat :=
  match mapLookup s.external_textures id with
  | none => .error .NotFound
  | some entry =>
    let bytes_per_row := entry.size.width * 4
    let total_size := bytes_per_row * entry.size.height
    .ok total_size

/-- `MetalAtlas::unmap_external_texture`: mark `needs_swap` (no
`NotMapped` check — nothing tracks the mapped state). -/
def unmap_external_texture (s : State) (id : Nat) : Except AtlasError State :=
  match mapLookup s.external_textures id with
  | none => .error .NotFound
  | some _ =>
    .ok { s with external_textures :=
            (mapUpdate s.external_textures id
              (fun e => { e with needs_swap := true })) }

/-- `MetalAtlas::swap_external_texture_buffers`. -/
def swap_external_texture_buffers (s : State) (id : Nat) :
    Except AtlasError State :=
  match mapLookup s.external_textures id with
  | none => .error .NotFound
  | some entry =>
    if entry.needs_swap then
      .ok { s with external_textures :=
              (mapUpdate s.external_textures id
                (fun e =>
                  { e with
                    front_texture := e.back_texture
                    back_texture := e.front_texture
                    needs_swap := false })) }
    else
      .ok s

/-- `MetalAtlas::get_external_metal_texture`. -/
def get_external_metal_texture (s : State) (id : Nat) : Except AtlasError Nat :=
  match mapLookup s.external_textures id with
  | none => .error .NotFound
  | some entry => .ok entry.front_texture

/-- `MetalAtlas::unregister_external_texture`. -/
def unregister_external_texture (s : State) (id : Nat) : State :=
  { s with external_textures := mapRemove s.external_textures id }

end MetalAtlas

/-! ## GPU canvas source (gpu_canvas.rs) -/

inductive GpuTextureFormat where
  | RGBA8
  | BGRA8
  | RGBA16F
deriving DecidableEq, Repr

structure GpuTextureHandle where
  native_handle : Int
  width : Nat
  height : Nat
  format : GpuTextureFormat
deriving DecidableEq, Repr

def GpuTextureHandle.bytes_per_pixel (h : GpuTextureHandle) : Nat :=
  match h.format with
  | .RGBA8 => 4
  | .BGRA8 => 4
  | .RGBA16F => 8

def GpuTextureHandle.size_in_bytes (h : GpuTextureHandle) : Nat :=
  h.width * h.height * h.bytes_per_pixel

/-- `GpuCanvasSource`: the `AtomicUsize` active index (field
`active_buffer` in the source; renamed to `active_buffer_index` because the
accessor method shares its name) plus the two handles. -/
structure GpuCanvasSource where
  active_buffer_index : Nat
  buffers : GpuTextureHandle × GpuTextureHandle
deriving DecidableEq, Repr

namespace GpuCanvasSource

def new (buffer0 buffer1 : GpuTextureHandle) : GpuCanvasSource :=
  { active_buffer_index := 0, buffers := (buffer0, buffer1) }

/-- `active_buffer()`: load the index (acquire) and return
`&buffers[index % 2]`. -/
def active_buffer (s : GpuCanvasSource) : GpuTextureHandle :=
  let index := s.active_buffer_index
  if index % 2 = 0 then s.buffers.1 else s.buffers.2

/-- `swap_buffers()`: `fetch_xor(1, Release)`. -/
def swap_buffers (s : GpuCanvasSource) : GpuCanvasSource :=
  { s with active_buffer_index := s.active_buffer_index ^^^ 1 }

/-- `set_active_buffer(index)`: store `index % 2` (release). -/
def set_active_buffer (s : GpuCanvasSource) (index : Nat) : GpuCanvasSource :=
  { s with active_buffer_index := index % 2 }

end GpuCanvasSource

/-! ## DMA-BUF exporter (dmabuf_export.rs)

The blade/Vulkan collaborators are abstracted: the context exposes an
optional memory handle per image, an optional external-memory-fd extension
(an fd-producing function when available), and the texture carries its
image identity.  The decision logic of `export_texture_as_dmabuf` is
translated verbatim. -/

/-- The `SharedTextureHandle` variant relevant on Linux/FreeBSD. -/
inductive SharedTextureHandle where
  | DmaBuf (fd : Int) (modifier : Nat) (size : SizeDP) (format : Nat)
      (stride : Nat)
deriving DecidableEq, Repr

structure BladeTexture where
  vk_image : Nat
deriving DecidableEq, Repr

/-- Abstract `blade_graphics::Context` capabilities. -/
structure BladeContext where
  vk_device : Nat
  vk_texture_memory : Nat → Option Nat
  vk_external_memory_fd : Option (Nat → Except Nat Int)

inductive DmabufError where
  | TextureHasNoMemory
  | ExtensionNotAvailable
  | GetFdFailed (code : Nat)
deriving DecidableEq, Repr

/-- Full form (Linux/FreeBSD `cfg`): errors when the texture has no bound
memory or the external-memory-fd extension is unavailable; on success the
stride is `width * 4` and the modifier 0 (linear). -/
def export_texture_as_dmabuf (gpu_context : BladeContext)
    (texture : BladeTexture) (size : SizeDP) (format : Nat) :
    Except DmabufError (Option SharedTextureHandle) :=
  match gpu_context.vk_texture_memory texture.vk_image with
  | none => .error .TextureHasNoMemory
  | some vk_memory =>
    match gpu_context.vk_external_memory_fd with
    | none => .error .ExtensionNotAvailable
    | some get_memory_fd =>
      match get_memory_fd vk_memory with
      | .error e => .error (.GetFdFailed e)
      | .ok fd =>
        let stride := size.width * 4
        .ok (some (.DmaBuf fd 0 size format stride))

/-- Stub form (non-Linux `cfg`): always `Ok(None)`. -/
def export_texture_as_dmabuf_stub (_gpu_context : BladeContext)
    (_texture : BladeTexture) (_size : SizeDP) (_format : Nat) :
    Except DmabufError (Option SharedTextureHandle) :=
  .ok none

/-! ## Per-window routing (event_bus_integration.rs)

The `WINDOW_SENDERS` DashMap of unbounded flume channels becomes an
association list from window id (`HWND.0 as isize`) to the channel's pending
queue; `try_send` on a live unbounded channel appends. -/

abbrev WindowSenders : Type := List (Int × List Event)

/-- The default routing callback installed by `initialize_event_bus`:
broadcast the input to every registered window, each envelope freshly built
with `sequence_number: 0` and a timestamp taken at routing time. -/
def route_broadcast (window_senders : WindowSenders) (input : PlatformInput)
    (now : Nat) : WindowSenders :=
  window_senders.map (fun entry =>
    (entry.1, entry.2 ++ [{ input := input, timestamp := now, sequence_number := 0 }]))

/-- `post_input_event_for_window`: look the window up and `try_send` an
envelope with `sequence_number: 0` and a post-time timestamp directly to its
channel (no-op when the window is unknown). -/
def post_input_event_for_window (window_senders : WindowSenders) (hwnd : Int)
    (input : PlatformInput) (now : Nat) : WindowSenders :=
  window_senders.map (fun entry =>
    if entry.1 = hwnd then
      (entry.1, entry.2 ++ [{ input := input, timestamp := now, sequence_number := 0 }])
    else entry)

/-- One iteration of the input processor's run loop: pop a batch of up to 64
envelopes from the global bus and hand each `event.input` (only the payload,
never the envelope) to the routing callback. -/
def processor_iteration (bus : EventBus) (window_senders : WindowSenders)
    (now : Nat) : EventBus × WindowSenders :=
  let r := bus.try_pop_batch 64
  (r.1, r.2.foldl (fun senders e => route_broadcast senders e.input now)
    window_senders)

/-!
# Theorems

First the arithmetic toolbox, then the ring-buffer specification lemmas,
then the per-claim results.
-/

theorem W_pos : 0 < W := by unfold W; positivity

/-- Wrapping subtraction recovers the exact difference of the underlying
unbounded counters when the difference is small (the in-flight count never
exceeds the ring capacity, which is far below 2^64). -/
theorem wrapSub_eq (p q : Nat) (h1 : q ≤ p) (h2 : p - q < W) :
    wrapSub (p % W) (q % W) = p - q := by
  unfold wrapSub
  have hW : 0 < W := W_pos
  have hq : q % W ≤ W := le_of_lt (Nat.mod_lt _ hW)
  have hqq : q % W % W = q % W := Nat.mod_mod_of_dvd _ dvd_rfl
  rw [hqq]
  have hstep : (p % W + (W - q % W)) % W = (p + (W - q % W)) % W := by
    rw [Nat.add_mod, Nat.mod_mod_of_dvd _ dvd_rfl, ← Nat.add_mod]
  rw [hstep]
  have hqmod := Nat.div_add_mod q W
  have hmul : W * (q / W + 1) = W * (q / W) + W := by ring
  have hrepr : p + (W - q % W) = (p - q) + W * (q / W + 1) := by omega
  rw [hrepr, Nat.add_mul_mod_self_left, Nat.mod_eq_of_lt h2]

theorem wrapAdd_one (p : Nat) : wrapAdd (p % W) 1 = (p + 1) % W := by
  unfold wrapAdd
  rw [Nat.add_mod, Nat.mod_mod_of_dvd _ dvd_rfl, ← Nat.add_mod]

/-- Bitwise AND with an all-ones mask `2^k - 1` is reduction modulo `2^k`:
this is the `counter & mask` slot indexing of the ring buffer. -/
theorem land_mask (x k : Nat) : x &&& (2 ^ k - 1) = x % 2 ^ k := by
  apply Nat.eq_of_testBit_eq
  intro i
  simp [Nat.testBit_land, Nat.testBit_mod_two_pow, Nat.testBit_two_pow_sub_one,
    Bool.and_comm]

theorem mod_W_mod_pow (x k : Nat) (hk : k ≤ 64) : x % W % 2 ^ k = x % 2 ^ k :=
  Nat.mod_mod_of_dvd _ (pow_dvd_pow 2 hk)

/-- XOR with 1 flips the low bit (used by `GpuCanvasSource::swap_buffers`). -/
theorem xor_one_mod_two (a : Nat) : (a ^^^ 1) % 2 = 1 - a % 2 := by
  have h := Nat.testBit_xor a 1 0
  rw [Nat.testBit_zero, Nat.testBit_zero, Nat.testBit_zero] at h
  rcases Nat.mod_two_eq_zero_or_one a with h2 | h2 <;>
    rcases Nat.mod_two_eq_zero_or_one (a ^^^ 1) with h3 | h3 <;>
    simp [h2, h3] at h ⊢

theorem xor_one_xor_one (a : Nat) : a ^^^ 1 ^^^ 1 = a := by
  rw [Nat.xor_assoc, Nat.xor_self, Nat.xor_zero]

/-! ### Ring-buffer specification lemmas -/

theorem cap_lt_W {T : Type} {s : LockFreeRingBuffer T} {k p q : Nat}
    (inv : RingInv s k p q) : s.capacity < W := by
  rw [inv.cap_eq]
  exact Nat.pow_lt_pow_right (by omega) (by have := inv.k_le; omega)

theorem ringInv_new (T : Type) (k : Nat) (hk : k ≤ 63) :
    RingInv (LockFreeRingBuffer.new T (2 ^ k)) k 0 0 := by
  refine ⟨hk, rfl, rfl, ?_, rfl, rfl, Nat.le_refl 0, by simp⟩
  simp [LockFreeRingBuffer.new]

theorem contents_refl {T : Type} (s : LockFreeRingBuffer T) (q : Nat) :
    Contents s q q [] := by
  constructor
  · simp
  · intro j hj
    omega

/-- A full ring rejects the push, leaving the state untouched. -/
theorem try_push_fail {T : Type} {s : LockFreeRingBuffer T} {k p q : Nat}
    (inv : RingInv s k p q) (hfull : s.capacity ≤ p - q) (v : T) :
    s.try_push v = (s, false) := by
  have hdiff : wrapSub s.tail s.head = p - q := by
    rw [inv.tail_eq, inv.head_eq]
    exact wrapSub_eq p q inv.q_le_p (lt_of_le_of_lt inv.diff_le (cap_lt_W inv))
  have hcond : s.capacity ≤ wrapSub s.tail s.head := by omega
  unfold LockFreeRingBuffer.try_push
  simp only [hcond, if_true]

/-- Push on a non-full ring: writes slot `p % capacity` and advances the
tail to `(p + 1) % 2^64`. -/
theorem try_push_eq {T : Type} {s : LockFreeRingBuffer T} {k p q : Nat}
    (inv : RingInv s k p q) (hlt : p - q < s.capacity) (v : T) :
    s.try_push v = (pushResult s p v, true) := by
  have hdiff : wrapSub s.tail s.head = p - q := by
    rw [inv.tail_eq, inv.head_eq]
    exact wrapSub_eq p q inv.q_le_p (lt_trans hlt (cap_lt_W inv))
  have hcond : ¬ s.capacity ≤ wrapSub s.tail s.head := by omega
  have hslot : s.tail &&& s.mask = p % s.capacity := by
    rw [inv.tail_eq, inv.mask_eq, inv.cap_eq, land_mask,
      mod_W_mod_pow p k (by have := inv.k_le; omega)]
  have htail : wrapAdd s.tail 1 = (p + 1) % W := by
    rw [inv.tail_eq, wrapAdd_one]
  unfold LockFreeRingBuffer.try_push
  simp only [hcond, if_false, hslot, htail, pushResult]

theorem pushResult_inv {T : Type} {s : LockFreeRingBuffer T} {k p q : Nat}
    (inv : RingInv s k p q) (hlt : p - q < s.capacity) (v : T) :
    RingInv (pushResult s p v) k (p + 1) q :=
  { k_le := inv.k_le
    cap_eq := inv.cap_eq
    mask_eq := inv.mask_eq
    buf_len := by simp [pushResult, List.length_set, inv.buf_len]
    head_eq := inv.head_eq
    tail_eq := rfl
    q_le_p := le_trans inv.q_le_p (Nat.le_succ p)
    diff_le := by have := inv.q_le_p; simp [pushResult]; omega }

theorem pushResult_contents {T : Type} {s : LockFreeRingBuffer T} {k p q : Nat}
    (inv : RingInv s k p q) (hlt : p - q < s.capacity) (v : T) (l : List T)
    (hc : Contents s p q l) :
    Contents (pushResult s p v) (p + 1) q (l ++ [v]) := by
  have hcap_pos : 0 < s.capacity := by rw [inv.cap_eq]; positivity
  have hqp := inv.q_le_p
  constructor
  · simp [hc.1]
    omega
  · intro j hj
    simp only [pushResult]
    rcases Nat.lt_or_ge j (p - q) with hj' | hj'
    · -- old element, untouched slot
      have hne : p % s.capacity ≠ (q + j) % s.capacity := by
        intro heq
        have hle : q + j ≤ p := by omega
        have hmod : (q + j) ≡ p [MOD s.capacity] := heq.symm
        have hdvd : s.capacity ∣ p - (q + j) :=
          (Nat.modEq_iff_dvd' hle).mp hmod
        have hpos : 0 < p - (q + j) := by omega
        have := Nat.le_of_dvd hpos hdvd
        omega
      have hget := hc.2 j hj'
      simp only [List.getElem?_set, hne, if_false]
      rw [hget, List.getElem?_append]
      simp [hc.1, hj']
    · -- the new element at slot p % capacity
      have hj'' : j = p - q := by omega
      subst hj''
      have hidx : q + (p - q) = p := by omega
      rw [hidx]
      have hlt' : p % s.capacity < s.buffer.length := by
        rw [inv.buf_len]
        exact Nat.mod_lt _ hcap_pos
      simp only [List.getElem?_set, if_pos rfl, hlt', if_true]
      rw [List.getElem?_append]
      simp [hc.1]

/-- Pop on an empty ring returns `none` and leaves the state untouched. -/
theorem try_pop_none {T : Type} {s : LockFreeRingBuffer T} {k p q : Nat}
    (inv : RingInv s k p q) (hpq : p = q) : s.try_pop = (s, none) := by
  have hcond : s.tail ≤ s.head := by
    rw [inv.tail_eq, inv.head_eq, hpq]
  unfold LockFreeRingBuffer.try_pop
  simp only [hcond, if_true]

/-- Pop fires exactly when `head < tail` as stored (wrapped) values; this
hypothesis holds in particular whenever `q < p < 2^64`. -/
theorem try_pop_eq {T : Type} {s : LockFreeRingBuffer T} {k p q : Nat}
    (inv : RingInv s k p q) (hmod : q % W < p % W) (v : T) (l' : List T)
    (hc : Contents s p q (v :: l')) :
    s.try_pop = (popResult s q, some v) := by
  have hlt : q < p := by
    rcases Nat.lt_or_ge q p with h | h
    · exact h
    · have : p = q := by have := inv.q_le_p; omega
      rw [this] at hmod
      omega
  have hcond : ¬ s.tail ≤ s.head := by
    rw [inv.tail_eq, inv.head_eq]
    omega
  have hslot : s.head &&& s.mask = q % s.capacity := by
    rw [inv.head_eq, inv.mask_eq, inv.cap_eq, land_mask,
      mod_W_mod_pow q k (by have := inv.k_le; omega)]
  have hget := hc.2 0 (by have := hc.1; omega)
  rw [Nat.add_zero] at hget
  have hgetD : s.buffer.getD (q % s.capacity) none = some v := by
    rw [List.getD_eq_getElem?_getD, hget]
    simp
  have hhead : wrapAdd s.head 1 = (q + 1) % W := by
    rw [inv.head_eq, wrapAdd_one]
  unfold LockFreeRingBuffer.try_pop
  simp only [hcond, if_false, hslot, hgetD, hhead, popResult]

/-- Pop does not fire when the stored tail is at or below the stored head
(the empty ring, and also the counter-wrap anomaly after 2^64 pushes). -/
theorem try_pop_stuck {T : Type} {s : LockFreeRingBuffer T} {k p q : Nat}
    (inv : RingInv s k p q) (hmod : p % W ≤ q % W) : s.try_pop = (s, none) := by
  have hcond : s.tail ≤ s.head := by
    rw [inv.tail_eq, inv.head_eq]
    exact hmod
  unfold LockFreeRingBuffer.try_pop
  simp only [hcond, if_true]

theorem popResult_inv {T : Type} {s : LockFreeRingBuffer T} {k p q : Nat}
    (inv : RingInv s k p q) (hlt : q < p) :
    RingInv (popResult s q) k p (q + 1) :=
  { k_le := inv.k_le
    cap_eq := inv.cap_eq
    mask_eq := inv.mask_eq
    buf_len := by simp [popResult, List.length_set, inv.buf_len]
    head_eq := rfl
    tail_eq := inv.tail_eq
    q_le_p := hlt
    diff_le := by have := inv.diff_le; simp [popResult]; omega }

theorem popResult_contents {T : Type} {s : LockFreeRingBuffer T} {k p q : Nat}
    (inv : RingInv s k p q) (hlt : q < p) (v : T) (l' : List T)
    (hc : Contents s p q (v :: l')) :
    Contents (popResult s q) p (q + 1) l' := by
  constructor
  · have := hc.1
    simp at this ⊢
    omega
  · intro j hj
    simp only [popResult]
    have hne : q % s.capacity ≠ (q + 1 + j) % s.capacity := by
      intro heq
      have hle : q ≤ q + 1 + j := by omega
      have hdvd : s.capacity ∣ (q + 1 + j) - q :=
        (Nat.modEq_iff_dvd' hle).mp heq
      have hsub : (q + 1 + j) - q = j + 1 := by omega
      rw [hsub] at hdvd
      have hlt' : j + 1 < s.capacity := by
        have := inv.diff_le
        omega
      have := Nat.le_of_dvd (by omega) hdvd
      omega
    have hget' := hc.2 (j + 1) (by omega)
    have hidx : q + (j + 1) = q + 1 + j := by omega
    rw [hidx] at hget'
    simp only [List.getElem?_set, hne, if_false]
    rw [hget']
    simp

/-- `len()` computes the exact in-flight count under the invariant. -/
theorem len_eq {T : Type} {s : LockFreeRingBuffer T} {k p q : Nat}
    (inv : RingInv s k p q) : s.len = p - q := by
  unfold LockFreeRingBuffer.len
  rw [inv.tail_eq, inv.head_eq]
  exact wrapSub_eq p q inv.q_le_p (lt_of_le_of_lt inv.diff_le (cap_lt_W inv))

/-- `is_empty()` agrees with `head = tail` under the invariant. -/
theorem is_empty_iff {T : Type} {s : LockFreeRingBuffer T} {k p q : Nat}
    (inv : RingInv s k p q) : s.is_empty = true ↔ s.head = s.tail := by
  unfold LockFreeRingBuffer.is_empty
  rw [beq_iff_eq, len_eq inv, inv.head_eq, inv.tail_eq]
  constructor
  · intro h
    have : p = q := by have := inv.q_le_p; omega
    rw [this]
  · intro h
    have hmod : q ≡ p [MOD W] := h
    have hdvd : W ∣ p - q := (Nat.modEq_iff_dvd' inv.q_le_p).mp hmod
    have hlt : p - q < W := lt_of_le_of_lt inv.diff_le (cap_lt_W inv)
    exact Nat.eq_zero_of_dvd_of_lt hdvd hlt

/-- Any sequence of operations keeps the ring in a state related to its
successful-push and successful-pop counts by the representation invariant. -/
theorem run_good {T : Type} {k : Nat} (ops : List (RingOp T)) :
    ∀ (s : LockFreeRingBuffer T) (p q : Nat) (l : List T),
      RingInv s k p q → Contents s p q l →
      RingInv (run s p q ops).1 k (run s p q ops).2.1 (run s p q ops).2.2 ∧
        ∃ l', Contents (run s p q ops).1 (run s p q ops).2.1
          (run s p q ops).2.2 l' := by
  induction ops with
  | nil =>
    intro s p q l inv hc
    exact ⟨inv, l, hc⟩
  | cons op rest ih =>
    intro s p q l inv hc
    match op with
    | .push v =>
      rcases Nat.lt_or_ge (p - q) s.capacity with hlt | hge
      · rw [show run s p q (.push v :: rest) =
            run (pushResult s p v) (p + 1) q rest by
          simp [run, try_push_eq inv hlt v]]
        exact ih _ _ _ _ (pushResult_inv inv hlt v)
          (pushResult_contents inv hlt v l hc)
      · rw [show run s p q (.push v :: rest) = run s p q rest by
          simp [run, try_push_fail inv hge v]]
        exact ih _ _ _ _ inv hc
    | .pop =>
      rcases Nat.lt_or_ge (q % W) (p % W) with hmod | hmod
      · have hlt : q < p := by
          rcases Nat.lt_or_ge q p with h | h
          · exact h
          · have : p = q := by have := inv.q_le_p; omega
            rw [this] at hmod
            omega
        obtain ⟨v, l', rfl⟩ : ∃ v l', l = v :: l' := by
          cases l with
          | nil =>
            have := hc.1
            simp at this
            omega
          | cons v l' => exact ⟨v, l', rfl⟩
        rw [show run s p q (.pop :: rest) = run (popResult s q) p (q + 1) rest by
          simp [run, try_pop_eq inv hmod v l' hc]]
        exact ih _ _ _ _ (popResult_inv inv hlt)
          (popResult_contents inv hlt v l' hc)
      · rw [show run s p q (.pop :: rest) = run s p q rest by
          simp [run, try_pop_stuck inv hmod]]
        exact ih _ _ _ _ inv hc

/-- C6: for every sequence of `try_push`/`try_pop` operations on a ring of
capacity `C = 2^k`, at every observation the number of successful pops is at
most the number of successful pushes, their difference is at most `C`
(equivalently `tail − head ≤ C` as wrapping counters), and the ring is empty
exactly when `head = tail`. -/
theorem C6_ring_counter_invariants {T : Type} (k : Nat) (hk : k ≤ 63)
    (ops : List (RingOp T)) :
    let r := run (LockFreeRingBuffer.new T (2 ^ k)) 0 0 ops
    r.2.2 ≤ r.2.1 ∧ r.2.1 - r.2.2 ≤ 2 ^ k ∧
      wrapSub r.1.tail r.1.head ≤ 2 ^ k ∧
      (r.1.is_empty = true ↔ r.1.head = r.1.tail) := by
  intro r
  obtain ⟨inv, l', hc⟩ :=
    run_good ops (LockFreeRingBuffer.new T (2 ^ k)) 0 0 []
      (ringInv_new T k hk) (contents_refl _ 0)
  refine ⟨inv.q_le_p, ?_, ?_, is_empty_iff inv⟩
  · have h1 := inv.diff_le
    rw [inv.cap_eq] at h1
    exact h1
  · have h2 := len_eq inv
    unfold LockFreeRingBuffer.len at h2
    have h1 := inv.diff_le
    rw [inv.cap_eq] at h1
    rw [h2]
    exact h1

/-- Witness for C6 at a concrete capacity and operation sequence. -/
theorem C6_witness :
    2 ≤ 63 ∧
      (let r := run (LockFreeRingBuffer.new Nat (2 ^ 2)) 0 0
        [RingOp.push 7, RingOp.push 8, RingOp.pop]
       r.2.2 ≤ r.2.1 ∧ r.2.1 - r.2.2 ≤ 2 ^ 2 ∧
        wrapSub r.1.tail r.1.head ≤ 2 ^ 2 ∧
        (r.1.is_empty = true ↔ r.1.head = r.1.tail)) :=
  ⟨by decide, C6_ring_counter_invariants 2 (by decide)
    [RingOp.push 7, RingOp.push 8, RingOp.pop]⟩

/-- C5: on a ring of capacity 4, pushes of 1,2,3,4 succeed, a fifth push
fails, a pop returns 1, push 5 then succeeds, and the remaining pops return
2, 3, 4, 5 followed by empty. -/
theorem C5_ring_saturation_scenario :
    (runTrace (LockFreeRingBuffer.new Nat 4)
        [RingOp.push 1, RingOp.push 2, RingOp.push 3, RingOp.push 4,
         RingOp.push 5, RingOp.pop, RingOp.push 5, RingOp.pop, RingOp.pop,
         RingOp.pop, RingOp.pop, RingOp.pop]).2 =
      [RingRes.pushed true, RingRes.pushed true, RingRes.pushed true,
       RingRes.pushed true, RingRes.pushed false, RingRes.popped (some 1),
       RingRes.pushed true, RingRes.popped (some 2), RingRes.popped (some 3),
       RingRes.popped (some 4), RingRes.popped (some 5),
       RingRes.popped none] := by
  decide

/-- C4: `active_buffer()` called after `swap_buffers()` returns the sibling
of the handle `active_buffer()` returned immediately before the swap (the
other element of the pair), and two consecutive swaps restore the original
active handle. -/
theorem C4_swap_returns_sibling (s : GpuCanvasSource) :
    ((s.active_buffer = s.buffers.1 ∧
        s.swap_buffers.active_buffer = s.buffers.2) ∨
      (s.active_buffer = s.buffers.2 ∧
        s.swap_buffers.active_buffer = s.buffers.1)) ∧
    s.swap_buffers.swap_buffers.active_buffer = s.active_buffer := by
  unfold GpuCanvasSource.active_buffer GpuCanvasSource.swap_buffers
  have h1 := xor_one_mod_two s.active_buffer_index
  have h2 := xor_one_xor_one s.active_buffer_index
  rcases Nat.mod_two_eq_zero_or_one s.active_buffer_index with h0 | h0 <;>
    simp [h0, h1, h2]

/-! ### DMA-BUF exporter (C3) -/

/-- C3 counterexample: with the external-memory-fd extension unavailable
(and the texture's memory handle present), the full form returns an error —
not `Ok(None)` as the claim states. -/
theorem C3_counterexample :
    export_texture_as_dmabuf
        { vk_device := 0
          vk_texture_memory := fun _ => some 7
          vk_external_memory_fd := none }
        ⟨1⟩ ⟨64, 64⟩ 0 = .error .ExtensionNotAvailable ∧
      export_texture_as_dmabuf
        { vk_device := 0
          vk_texture_memory := fun _ => some 7
          vk_external_memory_fd := none }
        ⟨1⟩ ⟨64, 64⟩ 0 ≠ .ok none := by
  refine ⟨rfl, ?_⟩
  intro h
  exact Except.noConfusion h

/-- C3 amended: the stub form always returns `Ok(None)`; the full form
returns `Err("External memory FD extension not available")` when the
extension is missing and `Err("Texture has no memory")` when the backend
exposes no memory handle — it never downgrades a missing capability to
`Ok(None)`. -/
theorem C3_missing_capability_results (gpu_context : BladeContext)
    (texture : BladeTexture) (size : SizeDP) (format : Nat) :
    (export_texture_as_dmabuf_stub gpu_context texture size format = .ok none) ∧
    (gpu_context.vk_texture_memory texture.vk_image = none →
      export_texture_as_dmabuf gpu_context texture size format =
        .error .TextureHasNoMemory) ∧
    (∀ m, gpu_context.vk_texture_memory texture.vk_image = some m →
      gpu_context.vk_external_memory_fd = none →
      export_texture_as_dmabuf gpu_context texture size format =
        .error .ExtensionNotAvailable) := by
  refine ⟨rfl, ?_, ?_⟩
  · intro h
    simp [export_texture_as_dmabuf, h]
  · intro m hm he
    simp [export_texture_as_dmabuf, hm, he]

/-- Witness for C3 at concrete contexts exercising both error paths and the
stub. -/
theorem C3_witness :
    (export_texture_as_dmabuf_stub
        { vk_device := 0
          vk_texture_memory := fun _ => some 7
          vk_external_memory_fd := none }
        ⟨1⟩ ⟨64, 64⟩ 0 = .ok none) ∧
      export_texture_as_dmabuf
        { vk_device := 0
          vk_texture_memory := fun _ => none
          vk_external_memory_fd := none }
        ⟨1⟩ ⟨64, 64⟩ 0 = .error .TextureHasNoMemory ∧
      export_texture_as_dmabuf
        { vk_device := 0
          vk_texture_memory := fun _ => some 7
          vk_external_memory_fd := none }
        ⟨1⟩ ⟨64, 64⟩ 0 = .error .ExtensionNotAvailable :=
  ⟨(C3_missing_capability_results
      { vk_device := 0
        vk_texture_memory := fun _ => some 7
        vk_external_memory_fd := none } ⟨1⟩ ⟨64, 64⟩ 0).1,
    (C3_missing_capability_results
      { vk_device := 0
        vk_texture_memory := fun _ => none
        vk_external_memory_fd := none } ⟨1⟩ ⟨64, 64⟩ 0).2.1 rfl,
    (C3_missing_capability_results
      { vk_device := 0
        vk_texture_memory := fun _ => some 7
        vk_external_memory_fd := none } ⟨1⟩ ⟨64, 64⟩ 0).2.2 7 rfl rfl⟩

/-! ### Association-list map lemmas -/

theorem mapLookup_insert {V : Type} (m : List (Nat × V)) (id id' : Nat) (v : V) :
    mapLookup (mapInsert m id v) id' =
      if id' = id then some v else mapLookup m id' := by
  unfold mapInsert mapLookup
  by_cases h : id' = id
  · subst h
    simp [List.find?]
  · have hbeq : (id == id') = false := by
      simp
      omega
    simp only [List.find?, hbeq, if_neg h]
    induction m with
    | nil => rfl
    | cons kv rest ih =>
      by_cases hk : kv.1 = id
      · have h1 : (kv.1 != id) = false := by simp [hk]
        have h2 : (kv.1 == id') = false := by
          simp [hk]
          omega
        simp only [List.filter, h1]
        rw [ih]
        simp [List.find?, h2]
      · have h1 : (kv.1 != id) = true := by simp [hk]
        simp only [List.filter, h1]
        by_cases hk' : kv.1 = id'
        · have h2 : (kv.1 == id') = true := by simp [hk']
          simp [List.find?, h2]
        · have h2 : (kv.1 == id') = false := by simp [hk']
          simp only [List.find?, h2]
          exact ih

theorem mapLookup_update {V : Type} (m : List (Nat × V)) (id id' : Nat)
    (f : V → V) :
    mapLookup (mapUpdate m id f) id' =
      if id' = id then (mapLookup m id').map f else mapLookup m id' := by
  unfold mapUpdate mapLookup
  induction m with
  | nil => by_cases h : id' = id <;> simp [List.find?, h]
  | cons kv rest ih =>
    by_cases hk : kv.1 = id
    · by_cases hk' : kv.1 = id'
      · have h : id' = id := by omega
        have h2 : ((kv.1 : Nat) == id') = true := by simp [hk']
        simp [List.find?, hk, h2, h]
      · have h : ¬ id' = id := by omega
        have h2 : ((kv.1 : Nat) == id') = false := by simp [hk']
        simp only [List.map, if_pos hk, List.find?, h2, if_neg h]
        rw [ih]
        simp [if_neg h]
    · by_cases hk' : kv.1 = id'
      · have h2 : ((kv.1 : Nat) == id') = true := by simp [hk']
        simp only [List.map, if_neg hk, List.find?, h2]
        by_cases h : id' = id
        · omega
        · simp [h, List.find?, h2]
      · have h2 : ((kv.1 : Nat) == id') = false := by simp [hk']
        simp only [List.map, if_neg hk, List.find?, h2]
        exact ih

theorem mapLookup_remove {V : Type} (m : List (Nat × V)) (id id' : Nat) :
    mapLookup (mapRemove m id) id' =
      if id' = id then none else mapLookup m id' := by
  unfold mapRemove mapLookup
  induction m with
  | nil => by_cases h : id' = id <;> simp [List.find?, h]
  | cons kv rest ih =>
    by_cases hk : kv.1 = id
    · have h1 : (kv.1 != id) = false := by simp [hk]
      simp only [List.filter, h1]
      rw [ih]
      by_cases h : id' = id
      · simp [h]
      · have h2 : ((kv.1 : Nat) == id') = false := by
          simp
          omega
        simp [List.find?, h2, h]
    · have h1 : (kv.1 != id) = true := by simp [hk]
      simp only [List.filter, h1]
      by_cases hk' : kv.1 = id'
      · have h2 : ((kv.1 : Nat) == id') = true := by simp [hk']
        by_cases h : id' = id
        · omega
        · simp [List.find?, h2, h]
      · have h2 : ((kv.1 : Nat) == id') = false := by simp [hk']
        simp only [List.find?, h2]
        exact ih

/-! ### External texture state machine (C1, C7, C8) -/

/-- C1 counterexample: the sequence register → map → unmap → map is accepted
by the DirectX registry and leaves entry 1 with `is_mapped ∧ needs_swap` —
`map` checks `is_mapped` but not `needs_swap`, so mapping again between
unmap and swap violates the claimed invariant. -/
theorem C1_counterexample :
    (mapLookup (DirectXAtlas.runOps DirectXAtlas.initial
        [DirectXAtlas.Op.register ⟨64, 64⟩ DXGIFormat.B8G8R8A8_UNORM,
         DirectXAtlas.Op.map 1,
         DirectXAtlas.Op.unmap 1,
         DirectXAtlas.Op.map 1]).external_textures 1).map
      (fun e => (e.is_mapped, e.needs_swap)) = some (true, true) := by
  decide

/-- C1 amended: every registry operation except `map` preserves the
invariant `is_mapped ⇒ ¬needs_swap`, and `map` preserves it whenever the
mapped entry does not have a swap pending; the un-guarded case (`map` after
`unmap` with no intervening `swap`) is exactly the reachable violation. -/
theorem C1_map_guard_preserves_invariant (s : DirectXAtlas.State)
    (op : DirectXAtlas.Op) (hinv : DirectXAtlas.Inv s)
    (hguard : ∀ id e, op = DirectXAtlas.Op.map id →
      mapLookup s.external_textures id = some e → e.needs_swap = false) :
    DirectXAtlas.Inv (DirectXAtlas.applyOp s op) := by
  cases op with
  | register size format =>
    have hreg : ∀ (bpp : Nat), DirectXAtlas.Inv
        { external_textures := mapInsert s.external_textures
            s.next_external_texture_id
            { front_texture := s.next_resource
              front_view := s.next_resource + 1
              back_texture := s.next_resource + 2
              back_view := s.next_resource + 3
              staging_texture := s.next_resource + 4
              size := size
              format := format
              bytes_per_pixel := bpp
              needs_swap := false
              is_mapped := false }
          next_external_texture_id := s.next_external_texture_id + 1
          next_resource := s.next_resource + 5 } := by
      intro bpp id' e' hl hm
      rw [mapLookup_insert] at hl
      by_cases h : id' = s.next_external_texture_id
      · rw [if_pos h] at hl
        injection hl with hl
        rw [← hl] at hm
        simp at hm
      · rw [if_neg h] at hl
        exact hinv id' e' hl hm
    cases format with
    | R8G8B8A8_UNORM =>
      simp only [DirectXAtlas.applyOp, DirectXAtlas.register_external_texture]
      exact hreg 4
    | B8G8R8A8_UNORM =>
      simp only [DirectXAtlas.applyOp, DirectXAtlas.register_external_texture]
      exact hreg 4
    | R8_UNORM =>
      simp only [DirectXAtlas.applyOp, DirectXAtlas.register_external_texture]
      exact hreg 1
    | other code =>
      simp only [DirectXAtlas.applyOp, DirectXAtlas.register_external_texture]
      exact hinv
  | map id0 =>
    simp only [DirectXAtlas.applyOp]
    cases hl : mapLookup s.external_textures id0 with
    | none =>
      simp only [DirectXAtlas.map_external_texture, hl]
      exact hinv
    | some entry =>
      by_cases hm : entry.is_mapped = true
      · simp only [DirectXAtlas.map_external_texture, hl, hm, if_true]
        exact hinv
      · have hm' : entry.is_mapped = false := by
          cases hval : entry.is_mapped
          · rfl
          · exact absurd hval hm
        simp only [DirectXAtlas.map_external_texture, hl, hm', Bool.false_eq_true,
          if_false]
        intro id' e' hl' hme
        rw [mapLookup_update] at hl'
        by_cases h : id' = id0
        · rw [if_pos h, h, hl] at hl'
          simp only [Option.map_some'] at hl'
          injection hl' with hl'
          rw [← hl']
          exact hguard id0 entry rfl hl
        · rw [if_neg h] at hl'
          exact hinv id' e' hl' hme
  | unmap id0 =>
    simp only [DirectXAtlas.applyOp]
    cases hl : mapLookup s.external_textures id0 with
    | none =>
      simp only [DirectXAtlas.unmap_external_texture, hl]
      exact hinv
    | some entry =>
      by_cases hm : entry.is_mapped = true
      · simp only [DirectXAtlas.unmap_external_texture, hl, hm, Bool.not_true,
          Bool.false_eq_true, if_false]
        intro id' e' hl' hme
        rw [mapLookup_update] at hl'
        by_cases h : id' = id0
        · rw [if_pos h, h, hl] at hl'
          simp only [Option.map_some'] at hl'
          injection hl' with hl'
          rw [← hl'] at hme
          simp at hme
        · rw [if_neg h] at hl'
          exact hinv id' e' hl' hme
      · have hm' : entry.is_mapped = false := by
          cases hval : entry.is_mapped
          · rfl
          · exact absurd hval hm
        simp only [DirectXAtlas.unmap_external_texture, hl, hm', Bool.not_false,
          if_true]
        exact hinv
  | swap id0 =>
    simp only [DirectXAtlas.applyOp]
    cases hl : mapLookup s.external_textures id0 with
    | none =>
      simp only [DirectXAtlas.swap_external_texture_buffers, hl]
      exact hinv
    | some entry =>
      by_cases hn : entry.needs_swap = true
      · simp only [DirectXAtlas.swap_external_texture_buffers, hl, hn, if_true]
        intro id' e' hl' hme
        rw [mapLookup_update] at hl'
        by_cases h : id' = id0
        · rw [if_pos h, h, hl] at hl'
          simp only [Option.map_some'] at hl'
          injection hl' with hl'
          rw [← hl']
        · rw [if_neg h] at hl'
          exact hinv id' e' hl' hme
      · have hn' : entry.needs_swap = false := by
          cases hval : entry.needs_swap
          · rfl
          · exact absurd hval hn
        simp only [DirectXAtlas.swap_external_texture_buffers, hl, hn',
          Bool.false_eq_true, if_false]
        exact hinv
  | view id0 =>
    simp only [DirectXAtlas.applyOp]
    exact hinv
  | unregister id0 =>
    simp only [DirectXAtlas.applyOp, DirectXAtlas.unregister_external_texture]
    intro id' e' hl hm
    rw [mapLookup_remove] at hl
    by_cases h : id' = id0
    · rw [if_pos h] at hl
      exact Option.noConfusion hl
    · rw [if_neg h] at hl
      exact hinv id' e' hl hm

/-- Witness for the amended C1 at a concrete state and operation. -/
theorem C1_witness :
    DirectXAtlas.Inv (DirectXAtlas.applyOp DirectXAtlas.initial
      (DirectXAtlas.Op.map 1)) :=
  C1_map_guard_preserves_invariant DirectXAtlas.initial
    (DirectXAtlas.Op.map 1)
    (by
      intro id e h hm
      simp [DirectXAtlas.initial, mapLookup, List.find?] at h)
    (by
      intro id e hop hl
      simp [DirectXAtlas.initial, mapLookup, List.find?] at hl)

/-- C7: on both backends, `swap` of an unknown id returns `NotFound`; when
`needs_swap` holds it exchanges front with back (and the shader-resource
views on D3D) and clears the flag, and an immediately following second swap
changes nothing; when nothing is pending it leaves the state untouched. -/
theorem C7_swap_spec (s : DirectXAtlas.State) (t : MetalAtlas.State)
    (id : Nat) :
    (mapLookup s.external_textures id = none →
      DirectXAtlas.swap_external_texture_buffers s id = .error .NotFound) ∧
    (∀ e, mapLookup s.external_textures id = some e → e.needs_swap = false →
      DirectXAtlas.swap_external_texture_buffers s id = .ok s) ∧
    (∀ e, mapLookup s.external_textures id = some e → e.needs_swap = true →
      ∃ s', DirectXAtlas.swap_external_texture_buffers s id = .ok s' ∧
        mapLookup s'.external_textures id = some
          { e with
            front_texture := e.back_texture
            back_texture := e.front_texture
            front_view := e.back_view
            back_view := e.front_view
            needs_swap := false } ∧
        DirectXAtlas.swap_external_texture_buffers s' id = .ok s') ∧
    (mapLookup t.external_textures id = none →
      MetalAtlas.swap_external_texture_buffers t id = .error .NotFound) ∧
    (∀ e, mapLookup t.external_textures id = some e → e.needs_swap = false →
      MetalAtlas.swap_external_texture_buffers t id = .ok t) ∧
    (∀ e, mapLookup t.external_textures id = some e → e.needs_swap = true →
      ∃ t', MetalAtlas.swap_external_texture_buffers t id = .ok t' ∧
        mapLookup t'.external_textures id = some
          { e with
            front_texture := e.back_texture
            back_texture := e.front_texture
            needs_swap := false } ∧
        MetalAtlas.swap_external_texture_buffers t' id = .ok t') := by
  refine ⟨?_, ?_, ?_, ?_, ?_, ?_⟩
  · intro h
    simp [DirectXAtlas.swap_external_texture_buffers, h]
  · intro e hl hns
    simp [DirectXAtlas.swap_external_texture_buffers, hl, hns]
  · intro e hl hns
    refine ⟨{ s with external_textures :=
        (mapUpdate s.external_textures id
          (fun e =>
            { e with
              front_texture := e.back_texture
              back_texture := e.front_texture
              front_view := e.back_view
              back_view := e.front_view
              needs_swap := false })) }, ?_, ?_, ?_⟩
    · simp [DirectXAtlas.swap_external_texture_buffers, hl, hns]
    · rw [mapLookup_update, if_pos rfl, hl]
      rfl
    · have hl2 : mapLookup
          (mapUpdate s.external_textures id
            (fun e =>
              { e with
                front_texture := e.back_texture
                back_texture := e.front_texture
                front_view := e.back_view
                back_view := e.front_view
                needs_swap := false })) id = some
          { e with
            front_texture := e.back_texture
            back_texture := e.front_texture
            front_view := e.back_view
            back_view := e.front_view
            needs_swap := false } := by
        rw [mapLookup_update, if_pos rfl, hl]
        rfl
      simp [DirectXAtlas.swap_external_texture_buffers, hl2]
  · intro h
    simp [MetalAtlas.swap_external_texture_buffers, h]
  · intro e hl hns
    simp [MetalAtlas.swap_external_texture_buffers, hl, hns]
  · intro e hl hns
    refine ⟨{ t with external_textures :=
        (mapUpdate t.external_textures id
          (fun e =>
            { e with
              front_texture := e.back_texture
              back_texture := e.front_texture
              needs_swap := false })) }, ?_, ?_, ?_⟩
    · simp [MetalAtlas.swap_external_texture_buffers, hl, hns]
    · rw [mapLookup_update, if_pos rfl, hl]
      rfl
    · have hl2 : mapLookup
          (mapUpdate t.external_textures id
            (fun e =>
              { e with
                front_texture := e.back_texture
                back_texture := e.front_texture
                needs_swap := false })) id = some
          { e with
            front_texture := e.back_texture
            back_texture := e.front_texture
            needs_swap := false } := by
        rw [mapLookup_update, if_pos rfl, hl]
        rfl
      simp [MetalAtlas.swap_external_texture_buffers, hl2]

/-- Witness for C7 at concrete one-entry registries with a pending swap. -/
theorem C7_witness :
    ∃ s', DirectXAtlas.swap_external_texture_buffers
        ⟨[(1, ⟨10, 11, 12, 13, 14, ⟨64, 64⟩, DXGIFormat.B8G8R8A8_UNORM, 4,
          true, false⟩)], 2, 15⟩ 1 = .ok s' ∧
      mapLookup s'.external_textures 1 = some
        ⟨12, 13, 10, 11, 14, ⟨64, 64⟩, DXGIFormat.B8G8R8A8_UNORM, 4,
          false, false⟩ ∧
      DirectXAtlas.swap_external_texture_buffers s' 1 = .ok s' := by
  have h := (C7_swap_spec
    ⟨[(1, ⟨10, 11, 12, 13, 14, ⟨64, 64⟩, DXGIFormat.B8G8R8A8_UNORM, 4,
      true, false⟩)], 2, 15⟩
    ⟨[], 1, 0⟩ 1).2.2.1
    ⟨10, 11, 12, 13, 14, ⟨64, 64⟩, DXGIFormat.B8G8R8A8_UNORM, 4, true, false⟩
    (by decide) (by decide)
  exact h

/-- C8 counterexample: the Metal backend records no mapped state, so after a
successful `map` (whose view the caller still holds) a second `map` of the
same entry succeeds — it does not return `AlreadyMapped` as the claim
requires, and there is no `is_mapped` flag to set. -/
theorem C8_counterexample :
    MetalAtlas.register_external_texture MetalAtlas.initial ⟨2, 2⟩ =
      .ok (⟨[(1, ⟨0, 1, ⟨2, 2⟩, false⟩)], 2, 2⟩, 1) ∧
    MetalAtlas.map_external_texture ⟨[(1, ⟨0, 1, ⟨2, 2⟩, false⟩)], 2, 2⟩ 1 =
      .ok 16 ∧
    MetalAtlas.map_external_texture ⟨[(1, ⟨0, 1, ⟨2, 2⟩, false⟩)], 2, 2⟩ 1 ≠
      .error .AlreadyMapped := by
  refine ⟨rfl, rfl, ?_⟩
  intro h
  exact Except.noConfusion h

/-- C8 amended: on the D3D backend, `map` behaves exactly as claimed
(NotFound, AlreadyMapped, success of `width*height*bytes_per_pixel` bytes
setting `is_mapped`, errors leaving the state unchanged); on the Metal
backend, `map` returns `NotFound` for an unknown id and otherwise always
succeeds with a `width*4*height`-byte view of the shared back texture,
tracking no mapped state and never returning `AlreadyMapped`. -/
theorem C8_map_spec (s : DirectXAtlas.State) (t : MetalAtlas.State)
    (id : Nat) :
    (mapLookup s.external_textures id = none →
      DirectXAtlas.map_external_texture s id = .error .NotFound) ∧
    (∀ e, mapLookup s.external_textures id = some e → e.is_mapped = true →
      DirectXAtlas.map_external_texture s id = .error .AlreadyMapped) ∧
    (∀ e, mapLookup s.external_textures id = some e → e.is_mapped = false →
      ∃ s', DirectXAtlas.map_external_texture s id =
          .ok (s', e.size.width * e.size.height * e.bytes_per_pixel) ∧
        mapLookup s'.external_textures id = some { e with is_mapped := true }) ∧
    (mapLookup t.external_textures id = none →
      MetalAtlas.map_external_texture t id = .error .NotFound) ∧
    (∀ e, mapLookup t.external_textures id = some e →
      MetalAtlas.map_external_texture t id =
        .ok (e.size.width * 4 * e.size.height)) := by
  refine ⟨?_, ?_, ?_, ?_, ?_⟩
  · intro h
    simp [DirectXAtlas.map_external_texture, h]
  · intro e hl hm
    simp [DirectXAtlas.map_external_texture, hl, hm]
  · intro e hl hm
    refine ⟨{ s with external_textures :=
        (mapUpdate s.external_textures id
          (fun e => { e with is_mapped := true })) }, ?_, ?_⟩
    · simp [DirectXAtlas.map_external_texture, hl, hm]
    · rw [mapLookup_update, if_pos rfl, hl]
      rfl
  · intro h
    simp [MetalAtlas.map_external_texture, h]
  · intro e hl
    simp [MetalAtlas.map_external_texture, hl]

/-- Witness for C8: the D3D success path on a one-entry registry and the
Metal success path. -/
theorem C8_witness :
    (∃ s', DirectXAtlas.map_external_texture
        ⟨[(1, ⟨10, 11, 12, 13, 14, ⟨64, 32⟩, DXGIFormat.B8G8R8A8_UNORM, 4,
          false, false⟩)], 2, 15⟩ 1 = .ok (s', 64 * 32 * 4) ∧
      mapLookup s'.external_textures 1 = some
        ⟨10, 11, 12, 13, 14, ⟨64, 32⟩, DXGIFormat.B8G8R8A8_UNORM, 4,
          false, true⟩) ∧
    MetalAtlas.map_external_texture ⟨[(1, ⟨0, 1, ⟨2, 2⟩, false⟩)], 2, 2⟩ 1 =
      .ok (2 * 4 * 2) := by
  constructor
  · exact (C8_map_spec
      ⟨[(1, ⟨10, 11, 12, 13, 14, ⟨64, 32⟩, DXGIFormat.B8G8R8A8_UNORM, 4,
        false, false⟩)], 2, 15⟩ ⟨[], 1, 0⟩ 1).2.2.1
      ⟨10, 11, 12, 13, 14, ⟨64, 32⟩, DXGIFormat.B8G8R8A8_UNORM, 4,
        false, false⟩ (by decide) (by decide)
  · exact (C8_map_spec ⟨[], 1, 0⟩ ⟨[(1, ⟨0, 1, ⟨2, 2⟩, false⟩)], 2, 2⟩ 1).2.2.2.2
      ⟨0, 1, ⟨2, 2⟩, false⟩ (by decide)

/-! ### Event bus lemmas (towards C2 and C9) -/

theorem seqEvents_succ (input : PlatformInput) (now n : Nat) :
    seqEvents input now (n + 1) =
      seqEvents input now n ++ [⟨input, now, n⟩] := by
  simp [seqEvents, List.range_succ]

theorem seqEvents_length (input : PlatformInput) (now n : Nat) :
    (seqEvents input now n).length = n := by
  simp [seqEvents]

theorem seqEvents_map_seq (input : PlatformInput) (now n : Nat) :
    (seqEvents input now n).map Event.sequence_number = List.range n := by
  unfold seqEvents
  rw [List.map_map]
  have hcomp : (Event.sequence_number ∘ fun i =>
      ({ input := input, timestamp := now, sequence_number := i } : Event)) =
      id := rfl
  rw [hcomp, List.map_id]

/-- The migration loop moves the entire abstract contents of the old ring
into the new ring, in FIFO order, appended after whatever the new ring
already holds. -/
theorem migrate_loop_spec :
    ∀ (fuel : Nat) (old_buffer new_buffer : LockFreeRingBuffer Event)
      (k k' p q p' q' : Nat) (l l' : List Event),
      RingInv old_buffer k p q → Contents old_buffer p q l → p < W →
      RingInv new_buffer k' p' q' → Contents new_buffer p' q' l' →
      p - q + (p' - q') ≤ new_buffer.capacity →
      p - q < fuel →
      ∃ old_final new_final,
        EventBus.migrate_loop fuel old_buffer new_buffer =
          some (old_final, new_final) ∧
        RingInv new_final k' (p' + (p - q)) q' ∧
        Contents new_final (p' + (p - q)) q' (l' ++ l) := by
  intro fuel
  induction fuel with
  | zero =>
    intro old_buffer new_buffer k k' p q p' q' l l' _ _ _ _ _ _ hfuel
    omega
  | succ fuel ih =>
    intro old_buffer new_buffer k k' p q p' q' l l' invO hcO hp invN hcN hsum
      hfuel
    rcases Nat.eq_or_lt_of_le invO.q_le_p with heq | hlt
    · -- old ring already drained
      have hl0 : l = [] := by
        have := hcO.1
        rw [← heq] at this
        simp at this
        exact this
      refine ⟨old_buffer, new_buffer, ?_, ?_, ?_⟩
      · simp only [EventBus.migrate_loop, try_pop_none invO heq.symm]
      · have hz : p - q = 0 := by omega
        rw [hz, Nat.add_zero]
        exact invN
      · have hz : p - q = 0 := by omega
        rw [hz, Nat.add_zero, hl0, List.append_nil]
        exact hcN
    · -- pop one event from the old ring, push it into the new ring
      obtain ⟨v, l₂, rfl⟩ : ∃ v l₂, l = v :: l₂ := by
        cases l with
        | nil =>
          have := hcO.1
          simp at this
          omega
        | cons v l₂ => exact ⟨v, l₂, rfl⟩
      have hmod : q % W < p % W := by
        rw [Nat.mod_eq_of_lt hp, Nat.mod_eq_of_lt (lt_trans hlt hp)]
        exact hlt
      have hpushlt : p' - q' < new_buffer.capacity := by omega
      obtain ⟨of, nf, hmig, hinv, hcont⟩ :=
        ih (popResult old_buffer q) (pushResult new_buffer p' v) k k' p (q + 1)
          (p' + 1) q' l₂ (l' ++ [v])
          (popResult_inv invO hlt)
          (popResult_contents invO hlt v l₂ hcO)
          hp
          (pushResult_inv invN hpushlt v)
          (pushResult_contents invN hpushlt v l' hcN)
          (by
            have : (pushResult new_buffer p' v).capacity = new_buffer.capacity :=
              rfl
            omega)
          (by omega)
      refine ⟨of, nf, ?_, ?_, ?_⟩
      · simp only [EventBus.migrate_loop, try_pop_eq invO hmod v l₂ hcO,
          try_push_eq invN hpushlt v]
        exact hmig
      · have harith : p' + 1 + (p - (q + 1)) = p' + (p - q) := by omega
        rw [harith] at hinv
        exact hinv
      · have harith : p' + 1 + (p - (q + 1)) = p' + (p - q) := by omega
        rw [harith] at hcont
        have hassoc : l' ++ [v] ++ l₂ = l' ++ (v :: l₂) := by simp
        rw [hassoc] at hcont
        exact hcont

/-- The fast path of `push` under the ring invariant: the envelope
`⟨input, now, sequence⟩` lands in the ring and the counters advance. -/
theorem push_eq_fast {bus : EventBus} {k p q : Nat}
    (inv : RingInv bus.current_buffer k p q)
    (hlt : p - q < bus.current_buffer.capacity)
    (input : PlatformInput) (now : Nat) :
    bus.push input now = some
      { current_buffer :=
          pushResult bus.current_buffer p ⟨input, now, bus.sequence⟩
        sequence := wrapAdd bus.sequence 1
        stats := { bus.stats with
          total_events_pushed := bus.stats.total_events_pushed + 1 } } := by
  unfold EventBus.push
  simp only [try_push_eq inv hlt]

theorem busGood_n_lt_W {bus : EventBus} {input : PlatformInput} {now n e : Nat}
    (h : BusGood bus input now n e) : n < W := by
  have h1 : n - 0 ≤ bus.current_buffer.capacity := h.inv.diff_le
  have h2 : bus.current_buffer.capacity < W := cap_lt_W h.inv
  omega

theorem busGood_seq {bus : EventBus} {input : PlatformInput} {now n e : Nat}
    (h : BusGood bus input now n e) : bus.sequence = n := by
  rw [h.seq_eq]
  exact Nat.mod_eq_of_lt (busGood_n_lt_W h)

/-- A push below capacity succeeds and extends the invariant. -/
theorem push_step {bus : EventBus} {input : PlatformInput} {now n e : Nat}
    (h : BusGood bus input now n e) (hn : n < 2 ^ (13 + e)) :
    ∃ bus', bus.push input now = some bus' ∧
      BusGood bus' input now (n + 1) e := by
  have hseq : bus.sequence = n := busGood_seq h
  have hlt : n - 0 < bus.current_buffer.capacity := by
    rw [h.inv.cap_eq]
    omega
  have hpush := push_eq_fast h.inv hlt input now
  rw [hseq] at hpush
  refine ⟨_, hpush, ?_⟩
  have hinv := pushResult_inv h.inv hlt (⟨input, now, n⟩ : Event)
  have hcont := pushResult_contents h.inv hlt
    (⟨input, now, n⟩ : Event) _ h.contents
  exact
    { inv := hinv
      contents := by
        rw [seqEvents_succ]
        exact hcont
      seq_eq := by
        show wrapAdd n 1 = (n + 1) % W
        simp [wrapAdd]
      pushed := by
        show bus.stats.total_events_pushed + 1 = n + 1
        rw [h.pushed]
      expansions := h.expansions
      popped := h.popped }

/-- A push that finds the ring full (below the capacity ceiling) expands the
ring, migrates every pending envelope and pushes the new one. -/
theorem push_step_expand {bus : EventBus} {input : PlatformInput}
    {now n e : Nat} (h : BusGood bus input now n e)
    (hfull : n = 2 ^ (13 + e)) (hmax : 2 ^ (14 + e) ≤ MAX_BUFFER_CAPACITY) :
    ∃ bus', bus.push input now = some bus' ∧
      BusGood bus' input now (n + 1) (e + 1) := by
  have hk' : 14 + e ≤ 63 := by
    by_contra hcon
    have h21 : (2 : Nat) ^ 21 ≤ 2 ^ (14 + e) :=
      Nat.pow_le_pow_right (by omega) (by omega)
    have : (2 : Nat) ^ 21 = 2097152 := by norm_num
    have hmax' : MAX_BUFFER_CAPACITY = 1048576 := rfl
    omega
  have hnW : n < W := busGood_n_lt_W h
  have hseq : bus.sequence = n := busGood_seq h
  have hcap : bus.current_buffer.capacity = 2 ^ (13 + e) := h.inv.cap_eq
  have hfull' : bus.current_buffer.capacity ≤ n - 0 := by omega
  have hcap2 : bus.current_buffer.capacity * 2 = 2 ^ (14 + e) := by
    rw [hcap]
    have harith : 14 + e = (13 + e) + 1 := by omega
    rw [harith, pow_succ]
  have hnotover : ¬ MAX_BUFFER_CAPACITY < bus.current_buffer.capacity * 2 := by
    rw [hcap2]
    omega
  -- migration into the fresh double-size ring
  obtain ⟨of, nf, hmig, hinvN, hcontN⟩ :=
    migrate_loop_spec (bus.current_buffer.capacity + 1) bus.current_buffer
      (LockFreeRingBuffer.new Event (2 ^ (14 + e))) (13 + e) (14 + e) n 0 0 0
      (seqEvents input now n) []
      h.inv h.contents hnW
      (ringInv_new Event (14 + e) hk')
      (contents_refl _ 0)
      (by
        show n - 0 + (0 - 0) ≤ 2 ^ (14 + e)
        have := Nat.pow_le_pow_right (show 1 ≤ 2 by omega)
          (show 13 + e ≤ 14 + e by omega)
        omega)
      (by omega)
  rw [List.nil_append, Nat.zero_add] at hcontN
  rw [Nat.zero_add] at hinvN
  have hsub : n - 0 = n := by omega
  rw [hsub] at hinvN hcontN
  -- final push of the new envelope into the migrated ring
  have hlt2 : n - 0 < nf.capacity := by
    rw [hinvN.cap_eq, hfull]
    have harith : 14 + e = (13 + e) + 1 := by omega
    rw [harith, pow_succ]
    have hpos : 0 < 2 ^ (13 + e) := by positivity
    omega
  have hpushfin := try_push_eq hinvN hlt2 (⟨input, now, n⟩ : Event)
  have hinvF := pushResult_inv hinvN hlt2 (⟨input, now, n⟩ : Event)
  have hcontF := pushResult_contents hinvN hlt2
    (⟨input, now, n⟩ : Event) _ hcontN
  have hnotover2 : ¬ MAX_BUFFER_CAPACITY < 2 ^ (14 + e) := by omega
  -- assemble the push computation
  refine ⟨{ current_buffer := pushResult nf n ⟨input, now, n⟩
            sequence := wrapAdd n 1
            stats := { bus.stats with
              total_events_pushed := bus.stats.total_events_pushed + 1
              buffer_expansions := bus.stats.buffer_expansions + 1
              max_buffer_size := 2 ^ (14 + e) } }, ?_, ?_⟩
  · unfold EventBus.push
    rw [hseq]
    simp only [try_push_fail h.inv hfull']
    unfold EventBus.expand_and_push
    simp only [try_push_fail h.inv hfull', hcap2, hnotover2, if_false, hmig,
      hpushfin]
  · exact
      { inv := by
          have harith : 13 + (e + 1) = 14 + e := by omega
          rw [harith]
          exact hinvF
        contents := by
          rw [seqEvents_succ]
          exact hcontF
        seq_eq := by
          show wrapAdd n 1 = (n + 1) % W
          simp [wrapAdd]
        pushed := by
          show bus.stats.total_events_pushed + 1 = n + 1
          rw [h.pushed]
        expansions := by
          show bus.stats.buffer_expansions + 1 = e + 1
          rw [h.expansions]
        popped := h.popped }

/-- A fresh bus satisfies the invariant with zero pushes and expansions. -/
theorem busGood_new (input : PlatformInput) (now : Nat) :
    BusGood EventBus.new input now 0 0 :=
  { inv := by
      have h := ringInv_new Event 13 (by omega)
      have hcap : (2 : Nat) ^ 13 = INITIAL_BUFFER_CAPACITY := by
        norm_num [INITIAL_BUFFER_CAPACITY]
      rw [hcap] at h
      exact h
    contents := contents_refl _ 0
    seq_eq := by simp [EventBus.new]
    pushed := rfl
    expansions := rfl
    popped := rfl }

/-- After `n ≤ 16384` pushes from a fresh bus, all `n` envelopes are
retained with exactly one expansion once `n` exceeds the initial
capacity. -/
theorem pushN_good (input : PlatformInput) (now : Nat) :
    ∀ n, n ≤ 16384 →
      ∃ bus, pushN input now n = some bus ∧
        BusGood bus input now n (if 8192 < n then 1 else 0) := by
  intro n
  induction n with
  | zero =>
    intro _
    refine ⟨EventBus.new, rfl, ?_⟩
    have he : (if 8192 < 0 then 1 else 0) = 0 := by norm_num
    rw [he]
    exact busGood_new input now
  | succ n ih =>
    intro hle
    obtain ⟨bus, hpn, hgood⟩ := ih (by omega)
    rcases Nat.lt_or_ge n 8192 with hsmall | hbig
    · -- still inside the initial capacity
      have he : (if 8192 < n then 1 else 0) = 0 := by
        rw [if_neg (by omega)]
      rw [he] at hgood
      obtain ⟨bus', hp, hg⟩ := push_step hgood
        (by norm_num; omega)
      refine ⟨bus', ?_, ?_⟩
      · simp [pushN, hpn, hp]
      · have he' : (if 8192 < n + 1 then 1 else 0) = 0 := by
          rw [if_neg (by omega)]
        rw [he']
        exact hg
    · rcases Nat.eq_or_lt_of_le hbig with heq | hgt
      · -- the push that triggers the expansion
        have he : (if 8192 < n then 1 else 0) = 0 := by
          rw [if_neg (by omega)]
        rw [he] at hgood
        obtain ⟨bus', hp, hg⟩ := push_step_expand hgood
          (by norm_num; omega)
          (by norm_num [MAX_BUFFER_CAPACITY])
        refine ⟨bus', ?_, ?_⟩
        · simp [pushN, hpn, hp]
        · have he' : (if 8192 < n + 1 then 1 else 0) = 1 := by
            rw [if_pos (by omega)]
          rw [he']
          exact hg
      · -- inside the doubled capacity
        have he : (if 8192 < n then 1 else 0) = 1 := by
          rw [if_pos (by omega)]
        rw [he] at hgood
        obtain ⟨bus', hp, hg⟩ := push_step hgood
          (by norm_num; omega)
        refine ⟨bus', ?_, ?_⟩
        · simp [pushN, hpn, hp]
        · have he' : (if 8192 < n + 1 then 1 else 0) = 1 := by
            rw [if_pos (by omega)]
          rw [he']
          exact hg

/-- The batch-pop loop returns the first `m` pending envelopes in FIFO
order and advances the popped counter accordingly. -/
theorem pop_batch_loop_spec :
    ∀ (m : Nat) (buffer : LockFreeRingBuffer Event) (k p q : Nat)
      (l : List Event) (popped : Nat),
      RingInv buffer k p q → Contents buffer p q l → p < W →
      ∃ buf', EventBus.pop_batch_loop buffer popped m =
          (buf', l.take m, popped + min m (p - q)) ∧
        RingInv buf' k p (q + min m (p - q)) ∧
        Contents buf' p (q + min m (p - q)) (l.drop m) := by
  intro m
  induction m with
  | zero =>
    intro buffer k p q l popped inv hc hp
    refine ⟨buffer, ?_, ?_, ?_⟩
    · simp [EventBus.pop_batch_loop]
    · simpa using inv
    · simpa using hc
  | succ m ih =>
    intro buffer k p q l popped inv hc hp
    rcases Nat.eq_or_lt_of_le inv.q_le_p with heq | hlt
    · -- already empty
      have hl0 : l = [] := by
        have := hc.1
        rw [← heq] at this
        simp at this
        exact this
      refine ⟨buffer, ?_, ?_, ?_⟩
      · have hmin : min (m + 1) (p - q) = 0 := by omega
        simp [EventBus.pop_batch_loop, try_pop_none inv heq.symm, hl0, hmin]
      · have hmin : min (m + 1) (p - q) = 0 := by omega
        simpa [hmin] using inv
      · have hmin : min (m + 1) (p - q) = 0 := by omega
        simpa [hmin, hl0] using hc
    · -- pop one and recurse
      obtain ⟨v, l₂, rfl⟩ : ∃ v l₂, l = v :: l₂ := by
        cases l with
        | nil =>
          have := hc.1
          simp at this
          omega
        | cons v l₂ => exact ⟨v, l₂, rfl⟩
      have hmod : q % W < p % W := by
        rw [Nat.mod_eq_of_lt hp, Nat.mod_eq_of_lt (lt_trans hlt hp)]
        exact hlt
      obtain ⟨buf', heq', hinv', hcont'⟩ :=
        ih (popResult buffer q) k p (q + 1) l₂ (popped + 1)
          (popResult_inv inv hlt)
          (popResult_contents inv hlt v l₂ hc)
          hp
      refine ⟨buf', ?_, ?_, ?_⟩
      · simp only [EventBus.pop_batch_loop, try_pop_eq inv hmod v l₂ hc, heq']
        have hmin : popped + 1 + min m (p - (q + 1)) =
            popped + min (m + 1) (p - q) := by omega
        simp [hmin]
      · have hmin : q + 1 + min m (p - (q + 1)) = q + min (m + 1) (p - q) := by
          omega
        rw [hmin] at hinv'
        exact hinv'
      · have hmin : q + 1 + min m (p - (q + 1)) = q + min (m + 1) (p - q) := by
          omega
        rw [hmin] at hcont'
        exact hcont'

/-- `try_pop_batch` at the bus level. -/
theorem try_pop_batch_spec {bus : EventBus} {k p q : Nat} {l : List Event}
    (inv : RingInv bus.current_buffer k p q)
    (hc : Contents bus.current_buffer p q l) (hp : p < W) (m : Nat) :
    ∃ bus', bus.try_pop_batch m = (bus', l.take m) ∧
      RingInv bus'.current_buffer k p (q + min m (p - q)) ∧
      Contents bus'.current_buffer p (q + min m (p - q)) (l.drop m) := by
  obtain ⟨buf', heq', hinv', hcont'⟩ :=
    pop_batch_loop_spec m bus.current_buffer k p q l
      bus.stats.total_events_popped inv hc hp
  refine ⟨{ bus with
      current_buffer := buf'
      stats := { bus.stats with
        total_events_popped :=
          bus.stats.total_events_popped + min m (p - q) } }, ?_, hinv', hcont'⟩
  unfold EventBus.try_pop_batch
  simp only [heq']

/-- Iterating `try_pop_batch batch` until an empty batch recovers the exact
pending contents, in order. -/
theorem drain_batches_spec (batch : Nat) :
    ∀ (fuel : Nat) (bus : EventBus) (k p q : Nat) (l : List Event),
      RingInv bus.current_buffer k p q → Contents bus.current_buffer p q l →
      p < W → 0 < batch → l.length ≤ batch * fuel →
      (drain_batches bus batch fuel).2 = l := by
  intro fuel
  induction fuel with
  | zero =>
    intro bus k p q l inv hc hp hb hlen
    have hl0 : l = [] := by
      have : l.length = 0 := by omega
      simpa using this
    rw [hl0]
    rfl
  | succ fuel ih =>
    intro bus k p q l inv hc hp hb hlen
    obtain ⟨bus', heq', hinv', hcont'⟩ := try_pop_batch_spec inv hc hp batch
    cases l with
    | nil =>
      simp [drain_batches, heq']
    | cons v l₂ =>
      have hne : ((v :: l₂).take batch).isEmpty = false := by
        cases batch with
        | zero => omega
        | succ b => simp [List.take]
      have hrest := ih bus' k p (q + min batch (p - q)) ((v :: l₂).drop batch)
        hinv' hcont' hp hb
        (by
          have hd : ((v :: l₂).drop batch).length = (v :: l₂).length - batch := by
            simp
          have hmul : batch * (fuel + 1) = batch * fuel + batch := by ring
          omega)
      simp only [drain_batches, heq', hne, Bool.false_eq_true,
        if_false]
      rw [hrest]
      exact List.take_append_drop batch (v :: l₂)

/-- C2: pushing 8,292 events into a fresh bus (initial capacity 8,192)
doubles the ring once by migrating all events in FIFO order, so
`buffer_expansions ≥ 1`, `len() = 8,292`, and iterated `try_pop_batch(100)`
yields exactly 8,292 envelopes whose sequence numbers are `0, 1, …, 8291` —
strictly increasing from 0. -/
theorem C2_bus_expansion_scenario (input : PlatformInput) (now : Nat) :
    ∃ bus, pushN input now 8292 = some bus ∧
      1 ≤ bus.stats.buffer_expansions ∧
      bus.len = 8292 ∧
      (drain_batches bus 100 100).2.length = 8292 ∧
      (drain_batches bus 100 100).2.map Event.sequence_number =
        List.range 8292 := by
  obtain ⟨bus, hpn, hgood⟩ := pushN_good input now 8292 (by norm_num)
  have he : (if 8192 < 8292 then 1 else 0) = 1 := by norm_num
  rw [he] at hgood
  have hW : (8292 : Nat) < W := by
    have : (8292 : Nat) < 2 ^ 64 := by norm_num
    unfold W
    exact this
  have hd := drain_batches_spec 100 100 bus (13 + 1) 8292 0
    (seqEvents input now 8292) hgood.inv hgood.contents hW (by omega)
    (by rw [seqEvents_length]; omega)
  refine ⟨bus, hpn, ?_, ?_, ?_, ?_⟩
  · rw [hgood.expansions]
  · show bus.current_buffer.len = 8292
    rw [len_eq hgood.inv]
  · rw [hd, seqEvents_length]
  · rw [hd, seqEvents_map_seq]

/-- C9: under the ring invariant, a push below capacity or one whose
doubling stays within `MAX_BUFFER_CAPACITY` retains every pending envelope
and appends the new one (no event is dropped); exactly when the ring is full
and the doubled capacity would exceed the maximum, `push` panics (models the
fatal overload signal) instead of returning a failure. -/
theorem C9_push_overload_spec (bus : EventBus) (input : PlatformInput)
    (now : Nat) {k p q : Nat} {l : List Event}
    (inv : RingInv bus.current_buffer k p q)
    (hc : Contents bus.current_buffer p q l) (hp : p < W) :
    (p - q < bus.current_buffer.capacity →
      ∃ bus', bus.push input now = some bus' ∧
        Contents bus'.current_buffer (p + 1) q
          (l ++ [⟨input, now, bus.sequence⟩])) ∧
    (p - q = bus.current_buffer.capacity →
      bus.current_buffer.capacity * 2 ≤ MAX_BUFFER_CAPACITY →
      ∃ bus', bus.push input now = some bus' ∧
        Contents bus'.current_buffer (p - q + 1) 0
          (l ++ [⟨input, now, bus.sequence⟩])) ∧
    (p - q = bus.current_buffer.capacity →
      MAX_BUFFER_CAPACITY < bus.current_buffer.capacity * 2 →
      bus.push input now = none) := by
  refine ⟨?_, ?_, ?_⟩
  · -- fast path
    intro hlt
    exact ⟨_, push_eq_fast inv hlt input now,
      pushResult_contents inv hlt _ l hc⟩
  · -- expansion path
    intro hfull hmax
    have hk' : k + 1 ≤ 63 := by
      by_contra hcon
      have h21 : (2 : Nat) ^ 21 ≤ 2 ^ (k + 1) :=
        Nat.pow_le_pow_right (by omega) (by omega)
      have hcap : bus.current_buffer.capacity = 2 ^ k := inv.cap_eq
      have hpow : bus.current_buffer.capacity * 2 = 2 ^ (k + 1) := by
        rw [hcap, pow_succ]
      have h221 : (2 : Nat) ^ 21 = 2097152 := by norm_num
      have hmaxval : MAX_BUFFER_CAPACITY = 1048576 := rfl
      omega
    have hcap2 : bus.current_buffer.capacity * 2 = 2 ^ (k + 1) := by
      rw [inv.cap_eq, pow_succ]
    have hfull' : bus.current_buffer.capacity ≤ p - q := by omega
    have hnotover : ¬ MAX_BUFFER_CAPACITY < 2 ^ (k + 1) := by omega
    obtain ⟨of, nf, hmig, hinvN, hcontN⟩ :=
      migrate_loop_spec (bus.current_buffer.capacity + 1) bus.current_buffer
        (LockFreeRingBuffer.new Event (2 ^ (k + 1))) k (k + 1) p q 0 0 l []
        inv hc hp (ringInv_new Event (k + 1) hk') (contents_refl _ 0)
        (by
          have hle : (2 : Nat) ^ k ≤ 2 ^ (k + 1) :=
            Nat.pow_le_pow_right (by omega) (by omega)
          have hcap : bus.current_buffer.capacity = 2 ^ k := inv.cap_eq
          show p - q + (0 - 0) ≤ 2 ^ (k + 1)
          omega)
        (by omega)
    rw [List.nil_append, Nat.zero_add] at hcontN
    rw [Nat.zero_add] at hinvN
    have hlt2 : p - q - 0 < nf.capacity := by
      rw [hinvN.cap_eq]
      have hcap : bus.current_buffer.capacity = 2 ^ k := inv.cap_eq
      have hlt' : (2 : Nat) ^ k < 2 ^ (k + 1) :=
        Nat.pow_lt_pow_right (by omega) (by omega)
      omega
    have hpushfin := try_push_eq hinvN hlt2 (⟨input, now, bus.sequence⟩ : Event)
    have hcontF := pushResult_contents hinvN hlt2
      (⟨input, now, bus.sequence⟩ : Event) _ hcontN
    refine ⟨{ current_buffer := pushResult nf (p - q) ⟨input, now, bus.sequence⟩
              sequence := wrapAdd bus.sequence 1
              stats := { bus.stats with
                total_events_pushed := bus.stats.total_events_pushed + 1
                buffer_expansions := bus.stats.buffer_expansions + 1
                max_buffer_size := 2 ^ (k + 1) } }, ?_, hcontF⟩
    unfold EventBus.push
    simp only [try_push_fail inv hfull']
    unfold EventBus.expand_and_push
    simp only [try_push_fail inv hfull', hcap2, hnotover, if_false, hmig,
      hpushfin]
  · -- overload: doubled capacity would exceed the maximum
    intro hfull hover
    have hfull' : bus.current_buffer.capacity ≤ p - q := by omega
    unfold EventBus.push
    simp only [try_push_fail inv hfull']
    unfold EventBus.expand_and_push
    simp only [try_push_fail inv hfull', hover, if_true]

/-- Witness for C9: the fast path on a fresh bus. -/
theorem C9_witness :
    ∃ bus', EventBus.new.push ⟨0⟩ 0 = some bus' ∧
      Contents bus'.current_buffer (0 + 1) 0
        ([] ++ [⟨⟨0⟩, 0, EventBus.new.sequence⟩]) :=
  (C9_push_overload_spec EventBus.new ⟨0⟩ 0 (busGood_new ⟨0⟩ 0).inv
    (contents_refl _ 0) (by unfold W; norm_num)).1
    (by
      have hcap : EventBus.new.current_buffer.capacity =
          INITIAL_BUFFER_CAPACITY := rfl
      rw [hcap]
      norm_num [INITIAL_BUFFER_CAPACITY])

/-! ### Per-window routing (C10) -/

theorem route_broadcast_mem (senders : WindowSenders) (input : PlatformInput)
    (now : Nat) (w : Int) (queue : List Event)
    (h : (w, queue) ∈ route_broadcast senders input now) :
    ∃ q0, (w, q0) ∈ senders ∧ queue = q0 ++ [⟨input, now, 0⟩] := by
  unfold route_broadcast at h
  rw [List.mem_map] at h
  obtain ⟨⟨w', q0⟩, hm, he⟩ := h
  simp only [Prod.mk.injEq] at he
  exact ⟨q0, by rw [← he.1]; exact hm, he.2.symm⟩

/-- Folding the routing callback over a popped batch only ever appends
freshly built envelopes with sequence number 0 and the routing-time
timestamp; the batch's own (bus-assigned) sequence numbers never reach the
per-window queues. -/
theorem foldl_broadcast_mem (now : Nat) :
    ∀ (events : List Event) (senders : WindowSenders) (w : Int)
      (queue : List Event),
      (w, queue) ∈ events.foldl
        (fun sndrs e => route_broadcast sndrs e.input now) senders →
      ∃ q0 suffix, (w, q0) ∈ senders ∧ queue = q0 ++ suffix ∧
        ∀ ev ∈ suffix, ev.sequence_number = 0 ∧ ev.timestamp = now := by
  intro events
  induction events with
  | nil =>
    intro senders w queue h
    exact ⟨queue, [], h, by simp, by simp⟩
  | cons e rest ih =>
    intro senders w queue h
    rw [List.foldl_cons] at h
    obtain ⟨q1, suffix, hm1, hq1, hsuf⟩ := ih _ w queue h
    obtain ⟨q0, hm0, hq0⟩ := route_broadcast_mem senders e.input now w q1 hm1
    refine ⟨q0, ⟨e.input, now, 0⟩ :: suffix, hm0, ?_, ?_⟩
    · rw [hq1, hq0]
      simp
    · intro ev hev
      rcases List.mem_cons.mp hev with heq | hmem
      · rw [heq]
        exact ⟨rfl, rfl⟩
      · exact hsuf ev hmem

theorem post_for_window_mem (senders : WindowSenders) (hwnd : Int)
    (input : PlatformInput) (now : Nat) (w : Int) (queue : List Event)
    (h : (w, queue) ∈ post_input_event_for_window senders hwnd input now) :
    ∃ q0, (w, q0) ∈ senders ∧
      (queue = q0 ∨ queue = q0 ++ [⟨input, now, 0⟩]) := by
  unfold post_input_event_for_window at h
  rw [List.mem_map] at h
  obtain ⟨⟨w', q0⟩, hm, he⟩ := h
  by_cases hw : w' = hwnd
  · rw [if_pos hw] at he
    simp only [Prod.mk.injEq] at he
    exact ⟨q0, by rw [← he.1]; exact hm, Or.inr he.2.symm⟩
  · rw [if_neg hw] at he
    simp only [Prod.mk.injEq] at he
    exact ⟨q0, by rw [← he.1]; exact hm, Or.inl he.2.symm⟩

/-- C10: every envelope deposited into a per-window channel — by the
processor's default broadcast callback or by
`post_input_event_for_window` — carries `sequence_number = 0` and a
timestamp taken at routing/posting time; the global bus's sequence counter
is never propagated into per-window envelopes (events already in a queue
are untouched, and every new envelope is `⟨input, now, 0⟩`). -/
theorem C10_per_window_sequence_zero (bus : EventBus)
    (senders : WindowSenders) (now : Nat) (hwnd : Int)
    (input : PlatformInput) :
    (∀ w queue, (w, queue) ∈ (processor_iteration bus senders now).2 →
      ∀ ev ∈ queue, (∃ q0, (w, q0) ∈ senders ∧ ev ∈ q0) ∨
        (ev.sequence_number = 0 ∧ ev.timestamp = now)) ∧
    (∀ w queue,
      (w, queue) ∈ post_input_event_for_window senders hwnd input now →
      ∀ ev ∈ queue, (∃ q0, (w, q0) ∈ senders ∧ ev ∈ q0) ∨
        (ev.sequence_number = 0 ∧ ev.timestamp = now)) := by
  constructor
  · intro w queue h ev hev
    obtain ⟨q0, suffix, hm0, hq, hsuf⟩ :=
      foldl_broadcast_mem now (bus.try_pop_batch 64).2 senders w queue h
    rw [hq] at hev
    rcases List.mem_append.mp hev with hold | hnew
    · exact Or.inl ⟨q0, hm0, hold⟩
    · exact Or.inr (hsuf ev hnew)
  · intro w queue h ev hev
    obtain ⟨q0, hm0, hq⟩ :=
      post_for_window_mem senders hwnd input now w queue h
    rcases hq with hq | hq
    · rw [hq] at hev
      exact Or.inl ⟨q0, hm0, hev⟩
    · rw [hq] at hev
      rcases List.mem_append.mp hev with hold | hnew
      · exact Or.inl ⟨q0, hm0, hold⟩
      · rw [List.mem_singleton] at hnew
        rw [hnew]
        exact Or.inr ⟨rfl, rfl⟩

/-- Witness for C10 on a concrete one-window registry. -/
theorem C10_witness :
    (∃ q0, ((5 : Int), q0) ∈ ([((5 : Int), ([] : List Event))] : WindowSenders) ∧
        (⟨⟨9⟩, 3, 0⟩ : Event) ∈ q0) ∨
      ((⟨⟨9⟩, 3, 0⟩ : Event).sequence_number = 0 ∧
        (⟨⟨9⟩, 3, 0⟩ : Event).timestamp = 3) :=
  (C10_per_window_sequence_zero EventBus.new [((5 : Int), [])] 3 5 ⟨9⟩).2
    5 [⟨⟨9⟩, 3, 0⟩]
    (by
      show ((5 : Int), [(⟨⟨9⟩, 3, 0⟩ : Event)]) ∈
        post_input_event_for_window [((5 : Int), [])] 5 ⟨9⟩ 3
      simp [post_input_event_for_window])
    ⟨⟨9⟩, 3, 0⟩ (by simp)

end ZedCore
